import Mathlib

/-!
Verification of the user-story sync script (`scripts/sync-stories.py`).

The script is embedded shallowly: Python strings become `List Char`
(`Str`), regex scanning becomes explicit recursive scanners over
character lists, Python sets become lists with membership (for the
checkbox-text sets) or `Finset Str` (for label sets), and the
subprocess/retry loop becomes a function over the list of outcomes the
successive invocations would produce.  Every definition is written
against the source; definitions whose doc comment says "spec-shaped"
restate a spec sentence and are only used as the right-hand side of a
characterization theorem.
-/

set_option maxRecDepth 10000

/-- Python strings, embedded as lists of characters. -/
abbrev Str := List Char

/-- String literal helper: a Lean string literal as a `Str`. -/
def str (s : String) : Str := s.toList

/-- Python `str.lower()` (ASCII model). -/
def pyLower (s : Str) : Str := s.map Char.toLower

/-- Python's `\s` / `str.strip()` whitespace class (ASCII model). -/
def isPySpace (c : Char) : Bool :=
  c = ' ' || c = '\t' || c = '\n' || c = '\r' || c = '\x0b' || c = '\x0c'

/-- Python `str.strip()`. -/
def pyStrip (s : Str) : Str :=
  ((s.dropWhile isPySpace).reverse.dropWhile isPySpace).reverse

/-- Python's `in` on strings: `pat` occurs as a contiguous substring of `s`.
Also the model of an (unanchored) regex-literal occurrence test. -/
def hasSub (pat : Str) : Str → Bool
  | [] => pat.isPrefixOf []
  | s@(_ :: rest) => pat.isPrefixOf s || hasSub pat rest

/-- `[^\w\s\-:().,#/]`'s complement: the characters `SAFE_TITLE_PATTERN`
keeps (`\w` and `\s` in their ASCII reading). -/
def isSafeTitleChar (c : Char) : Bool :=
  c.isAlphanum || c = '_' || isPySpace c ||
    c = '-' || c = ':' || c = '(' || c = ')' || c = '.' || c = ',' || c = '#' || c = '/'

/-- `sanitize_text`: `SAFE_TITLE_PATTERN.sub("", text)` removes every
character outside the allow-list, i.e. keeps exactly the allowed ones. -/
def sanitize_text (text : Str) : Str := text.filter isSafeTitleChar

/-- `RATE_LIMIT_PATTERNS`. -/
def RATE_LIMIT_PATTERNS : List Str :=
  [str "rate limit", str "secondary rate limit", str "api rate limit", str "429"]

/-- `NON_RETRYABLE_ERRORS`. -/
def NON_RETRYABLE_ERRORS : List Str :=
  [str "401", str "404", str "422", str "authentication", str "unauthorized",
   str "not found", str "invalid", str "permission denied"]

/-- `is_retryable_error`: rate limits always retryable, then the
non-retryable list, else retryable by default. -/
def is_retryable_error (stderr : Str) : Bool :=
  let lower := pyLower stderr
  if RATE_LIMIT_PATTERNS.any (fun p => hasSub p lower) then true
  else if NON_RETRYABLE_ERRORS.any (fun p => hasSub (pyLower p) lower) then false
  else true

/-- **C10** Title sanitization is idempotent and its output contains only
characters of the fixed allow-list. -/
theorem sanitize_text_idempotent_allowlist :
    ∀ t : Str, sanitize_text (sanitize_text t) = sanitize_text t ∧
      ∀ c ∈ sanitize_text t, isSafeTitleChar c = true := by
  intro t
  constructor
  · simp [sanitize_text, List.filter_filter]
  · intro c hc
    exact List.of_mem_filter hc

/-- **C3** The error classifier: any rate-limit substring forces retryable
(even alongside a non-retryable substring); "404" with no rate-limit
substring is non-retryable; matching neither list is retryable. -/
theorem is_retryable_error_classification :
    ∀ s : Str,
      ((∃ p ∈ RATE_LIMIT_PATTERNS, hasSub p (pyLower s) = true) →
        is_retryable_error s = true) ∧
      (hasSub (str "404") (pyLower s) = true →
        (∀ p ∈ RATE_LIMIT_PATTERNS, hasSub p (pyLower s) = false) →
        is_retryable_error s = false) ∧
      ((∀ p ∈ RATE_LIMIT_PATTERNS, hasSub p (pyLower s) = false) →
        (∀ p ∈ NON_RETRYABLE_ERRORS, hasSub (pyLower p) (pyLower s) = false) →
        is_retryable_error s = true) := by
  intro s
  refine ⟨fun ⟨p, hp, hsub⟩ => ?_, fun h404 hnorate => ?_, fun hnorate hnonon => ?_⟩
  · have hany : RATE_LIMIT_PATTERNS.any (fun p => hasSub p (pyLower s)) = true :=
      List.any_eq_true.mpr ⟨p, hp, hsub⟩
    simp [is_retryable_error, hany]
  · have hany : RATE_LIMIT_PATTERNS.any (fun p => hasSub p (pyLower s)) = false := by
      simp only [List.any_eq_false]
      intro p hp
      simp [hnorate p hp]
    have hnon : NON_RETRYABLE_ERRORS.any (fun p => hasSub (pyLower p) (pyLower s)) = true := by
      refine List.any_eq_true.mpr ⟨str "404", by simp [NON_RETRYABLE_ERRORS], ?_⟩
      simpa [pyLower, str] using h404
    simp [is_retryable_error, hany, hnon]
  · have hany : RATE_LIMIT_PATTERNS.any (fun p => hasSub p (pyLower s)) = false := by
      simp only [List.any_eq_false]
      intro p hp
      simp [hnorate p hp]
    have hnon : NON_RETRYABLE_ERRORS.any (fun p => hasSub (pyLower p) (pyLower s)) = false := by
      simp only [List.any_eq_false]
      intro p hp
      simp [hnonon p hp]
    simp [is_retryable_error, hany, hnon]

/-- Witness for C3 at concrete inputs: "Rate limit: invalid request" is
retryable, "HTTP 404 not found" is not, "connection reset" is. -/
theorem is_retryable_error_classification_witness :
    is_retryable_error (str "Rate limit: invalid request") = true ∧
    is_retryable_error (str "HTTP 404 not found") = false ∧
    is_retryable_error (str "connection reset") = true :=
  ⟨(is_retryable_error_classification (str "Rate limit: invalid request")).1
      ⟨str "rate limit", by decide, by decide⟩,
   (is_retryable_error_classification (str "HTTP 404 not found")).2.1
      (by decide) (by decide),
   (is_retryable_error_classification (str "connection reset")).2.2
      (by decide) (by decide)⟩


/-- `MAX_RETRIES`. -/
def MAX_RETRIES : Nat := 3

/-- `RETRY_BASE_DELAY`. -/
def RETRY_BASE_DELAY : Nat := 2

/-- One invocation of the `gh` subprocess as `run_gh_command` observes it:
a process exit with code/stdout/stderr, a `subprocess.TimeoutExpired`, or a
`FileNotFoundError` (missing executable). -/
inductive GhOutcome
  | exited (code : Nat) (stdout stderr : Str)
  | timeout
  | notFound
deriving DecidableEq, Repr

/-- What a run of `run_gh_command` returns, plus the observable trace the
claims speak about: how many invocations were made and the sleeps taken
between attempts (in seconds, in order). -/
structure GhResult where
  code : Nat
  stdout : Str
  stderr : Str
  calls : Nat
  sleeps : List Nat
deriving DecidableEq, Repr

/-- The `for attempt in range(retries)` loop of `run_gh_command`: the list
holds the outcome of each would-be invocation (one entry per remaining
attempt, so `rest = []` is `attempt == retries - 1`); `lastError` mirrors
the `last_error` variable. -/
def runGhAux (attempt : Nat) (lastError : Str) : List GhOutcome → GhResult
  | [] => ⟨1, [], lastError, 0, []⟩
  | o :: rest =>
    match o with
    | .exited c out err =>
      if c = 0 then ⟨c, out, err, 1, []⟩
      else if ¬ is_retryable_error err then ⟨c, out, err, 1, []⟩
      else match rest with
        | [] => ⟨c, out, err, 1, []⟩
        | _ :: _ =>
          let r := runGhAux (attempt + 1) err rest
          ⟨r.code, r.stdout, r.stderr, r.calls + 1, (RETRY_BASE_DELAY ^ attempt) :: r.sleeps⟩
    | .timeout =>
      match rest with
      | [] => ⟨1, [], str "Command timed out", 1, []⟩
      | _ :: _ =>
        let r := runGhAux (attempt + 1) (str "Command timed out") rest
        ⟨r.code, r.stdout, r.stderr, r.calls + 1, (RETRY_BASE_DELAY ^ attempt) :: r.sleeps⟩
    | .notFound => ⟨1, [], str "gh command not found", 1, []⟩

/-- `run_gh_command` with `retries = outcomes.length` attempts available
(the script's calls pass `retries = MAX_RETRIES`). -/
def run_gh_command (outcomes : List GhOutcome) : GhResult :=
  runGhAux 0 [] outcomes

/-- An outcome the loop retries on: a nonzero exit whose stderr classifies
retryable, or a timeout. -/
def isRetryFail : GhOutcome → Bool
  | .exited c _ err => decide (c ≠ 0) && is_retryable_error err
  | .timeout => true
  | .notFound => false

/-- The `(code, stdout, stderr)` triple `run_gh_command` reports for a
failure outcome when it gives up on it. -/
def failData : GhOutcome → Nat × Str × Str
  | .exited c out err => (c, out, err)
  | .timeout => (1, [], str "Command timed out")
  | .notFound => (1, [], str "gh command not found")

theorem runGhAux_nil (a : Nat) (e : Str) : runGhAux a e [] = ⟨1, [], e, 0, []⟩ := rfl

theorem runGhAux_notFound (a : Nat) (e : Str) (rest : List GhOutcome) :
    runGhAux a e (.notFound :: rest) = ⟨1, [], str "gh command not found", 1, []⟩ := rfl

theorem runGhAux_exited_ok (a : Nat) (e out err : Str) (rest : List GhOutcome) :
    runGhAux a e (.exited 0 out err :: rest) = ⟨0, out, err, 1, []⟩ := rfl

theorem runGhAux_unfold_exited (a : Nat) (e : Str) (c : Nat) (out err : Str)
    (rest : List GhOutcome) :
    runGhAux a e (.exited c out err :: rest) =
      if c = 0 then ⟨c, out, err, 1, []⟩
      else if ¬ is_retryable_error err then ⟨c, out, err, 1, []⟩
      else match rest with
        | [] => ⟨c, out, err, 1, []⟩
        | _ :: _ =>
          let r := runGhAux (a + 1) err rest
          ⟨r.code, r.stdout, r.stderr, r.calls + 1, (RETRY_BASE_DELAY ^ a) :: r.sleeps⟩ := rfl

theorem runGhAux_exited_stop (a : Nat) (e : Str) (c : Nat) (out err : Str)
    (rest : List GhOutcome) (hc : c ≠ 0) (hr : is_retryable_error err = false) :
    runGhAux a e (.exited c out err :: rest) = ⟨c, out, err, 1, []⟩ := by
  rw [runGhAux_unfold_exited, if_neg hc, if_pos (by simp [hr])]

theorem runGhAux_exited_last (a : Nat) (e : Str) (c : Nat) (out err : Str)
    (hc : c ≠ 0) (hr : is_retryable_error err = true) :
    runGhAux a e [.exited c out err] = ⟨c, out, err, 1, []⟩ := by
  rw [runGhAux_unfold_exited, if_neg hc, if_neg (by simp [hr])]

theorem runGhAux_exited_retry (a : Nat) (e : Str) (c : Nat) (out err : Str)
    (rest : List GhOutcome) (hc : c ≠ 0) (hr : is_retryable_error err = true)
    (hne : rest ≠ []) :
    runGhAux a e (.exited c out err :: rest) =
      ⟨(runGhAux (a + 1) err rest).code, (runGhAux (a + 1) err rest).stdout,
        (runGhAux (a + 1) err rest).stderr, (runGhAux (a + 1) err rest).calls + 1,
        (RETRY_BASE_DELAY ^ a) :: (runGhAux (a + 1) err rest).sleeps⟩ := by
  cases rest with
  | nil => exact absurd rfl hne
  | cons r rs => rw [runGhAux_unfold_exited, if_neg hc, if_neg (by simp [hr])]

theorem runGhAux_timeout_last (a : Nat) (e : Str) :
    runGhAux a e [.timeout] = ⟨1, [], str "Command timed out", 1, []⟩ := rfl

theorem runGhAux_timeout_retry (a : Nat) (e : Str) (rest : List GhOutcome)
    (hne : rest ≠ []) :
    runGhAux a e (.timeout :: rest) =
      ⟨(runGhAux (a + 1) (str "Command timed out") rest).code,
        (runGhAux (a + 1) (str "Command timed out") rest).stdout,
        (runGhAux (a + 1) (str "Command timed out") rest).stderr,
        (runGhAux (a + 1) (str "Command timed out") rest).calls + 1,
        (RETRY_BASE_DELAY ^ a) :: (runGhAux (a + 1) (str "Command timed out") rest).sleeps⟩ := by
  cases rest with
  | nil => exact absurd rfl hne
  | cons r rs => rfl

theorem runGhAux_calls_le (attempt : Nat) (lastError : Str) (outcomes : List GhOutcome) :
    (runGhAux attempt lastError outcomes).calls ≤ outcomes.length := by
  induction outcomes generalizing attempt lastError with
  | nil => simp [runGhAux_nil]
  | cons o rest ih =>
    cases o with
    | exited c out err =>
      by_cases hc : c = 0
      · subst hc
        simp [runGhAux_exited_ok]
      · cases hr : is_retryable_error err with
        | false => simp [runGhAux_exited_stop attempt lastError c out err rest hc hr]
        | true =>
          cases rest with
          | nil => simp [runGhAux_exited_last attempt lastError c out err hc hr]
          | cons r rs =>
            rw [runGhAux_exited_retry attempt lastError c out err (r :: rs) hc hr (by simp)]
            dsimp only
            have h := ih (attempt + 1) err
            simp only [List.length_cons] at h ⊢
            omega
    | timeout =>
      cases rest with
      | nil => simp [runGhAux_timeout_last]
      | cons r rs =>
        rw [runGhAux_timeout_retry attempt lastError (r :: rs) (by simp)]
        dsimp only
        have h := ih (attempt + 1) (str "Command timed out")
        simp only [List.length_cons] at h ⊢
        omega
    | notFound => simp [runGhAux_notFound]

theorem runGhAux_calls_pos (attempt : Nat) (lastError : Str) (o : GhOutcome)
    (rest : List GhOutcome) :
    1 ≤ (runGhAux attempt lastError (o :: rest)).calls := by
  cases o with
  | exited c out err =>
    by_cases hc : c = 0
    · subst hc
      simp [runGhAux_exited_ok]
    · cases hr : is_retryable_error err with
      | false => simp [runGhAux_exited_stop attempt lastError c out err rest hc hr]
      | true =>
        cases rest with
        | nil => simp [runGhAux_exited_last attempt lastError c out err hc hr]
        | cons r rs =>
          rw [runGhAux_exited_retry attempt lastError c out err (r :: rs) hc hr (by simp)]
          dsimp only
          omega
  | timeout =>
    cases rest with
    | nil => simp [runGhAux_timeout_last]
    | cons r rs =>
      rw [runGhAux_timeout_retry attempt lastError (r :: rs) (by simp)]
      dsimp only
      omega
  | notFound => simp [runGhAux_notFound]

theorem runGhAux_sleeps (attempt : Nat) (lastError : Str) (outcomes : List GhOutcome) :
    (runGhAux attempt lastError outcomes).sleeps =
      (List.range ((runGhAux attempt lastError outcomes).calls - 1)).map
        (fun i => RETRY_BASE_DELAY ^ (attempt + i)) := by
  induction outcomes generalizing attempt lastError with
  | nil => simp [runGhAux_nil]
  | cons o rest ih =>
    cases o with
    | exited c out err =>
      by_cases hc : c = 0
      · subst hc
        simp [runGhAux_exited_ok]
      · cases hr : is_retryable_error err with
        | false => simp [runGhAux_exited_stop attempt lastError c out err rest hc hr]
        | true =>
          cases rest with
          | nil => simp [runGhAux_exited_last attempt lastError c out err hc hr]
          | cons r rs =>
            rw [runGhAux_exited_retry attempt lastError c out err (r :: rs) hc hr (by simp)]
            dsimp only
            have hpos := runGhAux_calls_pos (attempt + 1) err r rs
            have htail := ih (attempt + 1) err
            obtain ⟨k, hk⟩ : ∃ k, (runGhAux (attempt + 1) err (r :: rs)).calls = k + 1 :=
              ⟨(runGhAux (attempt + 1) err (r :: rs)).calls - 1, by omega⟩
            rw [htail, hk]
            simp only [Nat.add_sub_cancel, List.range_succ_eq_map, List.map_cons,
              List.map_map, List.cons.injEq]
            refine ⟨by simp, List.map_congr_left fun i _ => ?_⟩
            simp only [Function.comp_apply]
            congr 1
            omega
    | timeout =>
      cases rest with
      | nil => simp [runGhAux_timeout_last]
      | cons r rs =>
        rw [runGhAux_timeout_retry attempt lastError (r :: rs) (by simp)]
        dsimp only
        have hpos := runGhAux_calls_pos (attempt + 1) (str "Command timed out") r rs
        have htail := ih (attempt + 1) (str "Command timed out")
        obtain ⟨k, hk⟩ :
            ∃ k, (runGhAux (attempt + 1) (str "Command timed out") (r :: rs)).calls = k + 1 :=
          ⟨(runGhAux (attempt + 1) (str "Command timed out") (r :: rs)).calls - 1, by omega⟩
        rw [htail, hk]
        simp only [Nat.add_sub_cancel, List.range_succ_eq_map, List.map_cons,
          List.map_map, List.cons.injEq]
        refine ⟨by simp, List.map_congr_left fun i _ => ?_⟩
        simp only [Function.comp_apply]
        congr 1
        omega
    | notFound => simp [runGhAux_notFound]

theorem runGhAux_all_retryfail (attempt : Nat) (lastError : Str)
    (outcomes : List GhOutcome) (hall : ∀ o ∈ outcomes, isRetryFail o = true)
    (hne : outcomes ≠ []) :
    ((runGhAux attempt lastError outcomes).code,
      (runGhAux attempt lastError outcomes).stdout,
      (runGhAux attempt lastError outcomes).stderr) = failData (outcomes.getLast hne) ∧
    (runGhAux attempt lastError outcomes).calls = outcomes.length := by
  induction outcomes generalizing attempt lastError with
  | nil => exact absurd rfl hne
  | cons o rest ih =>
    have ho : isRetryFail o = true := hall o (by simp)
    cases o with
    | exited c out err =>
      simp only [isRetryFail, Bool.and_eq_true, decide_eq_true_eq] at ho
      obtain ⟨hc, hr⟩ := ho
      cases rest with
      | nil =>
        simp [runGhAux_exited_last attempt lastError c out err hc hr, failData,
          List.getLast]
      | cons r rs =>
        have hne' : r :: rs ≠ [] := by simp
        have hrec := ih (attempt + 1) err (fun x hx => hall x (by simp [hx])) hne'
        rw [runGhAux_exited_retry attempt lastError c out err (r :: rs) hc hr hne']
        dsimp only
        refine ⟨?_, ?_⟩
        · simpa [List.getLast_cons] using hrec.1
        · simp only [List.length_cons] at hrec ⊢
          omega
    | timeout =>
      cases rest with
      | nil =>
        simp [runGhAux_timeout_last, failData, List.getLast]
      | cons r rs =>
        have hne' : r :: rs ≠ [] := by simp
        have hrec := ih (attempt + 1) (str "Command timed out")
          (fun x hx => hall x (by simp [hx])) hne'
        rw [runGhAux_timeout_retry attempt lastError (r :: rs) hne']
        dsimp only
        refine ⟨?_, ?_⟩
        · simpa [List.getLast_cons] using hrec.1
        · simp only [List.length_cons] at hrec ⊢
          omega
    | notFound => simp [isRetryFail] at ho

theorem runGhAux_prefix_success (pre : List GhOutcome) (attempt : Nat) (lastError : Str)
    (out err : Str) (post : List GhOutcome)
    (hpre : ∀ x ∈ pre, isRetryFail x = true) :
    ((runGhAux attempt lastError (pre ++ .exited 0 out err :: post)).code,
      (runGhAux attempt lastError (pre ++ .exited 0 out err :: post)).stdout,
      (runGhAux attempt lastError (pre ++ .exited 0 out err :: post)).stderr) =
        (0, out, err) ∧
    (runGhAux attempt lastError (pre ++ .exited 0 out err :: post)).calls =
      pre.length + 1 := by
  induction pre generalizing attempt lastError with
  | nil => simp [runGhAux_exited_ok]
  | cons x pre' ih =>
    have hx : isRetryFail x = true := hpre x (by simp)
    have hne : pre' ++ GhOutcome.exited 0 out err :: post ≠ [] := by simp
    cases x with
    | exited c out' err' =>
      simp only [isRetryFail, Bool.and_eq_true, decide_eq_true_eq] at hx
      obtain ⟨hc, hr⟩ := hx
      rw [List.cons_append,
        runGhAux_exited_retry attempt lastError c out' err'
          (pre' ++ GhOutcome.exited 0 out err :: post) hc hr hne]
      dsimp only
      have h := ih (attempt + 1) err' (fun y hy => hpre y (by simp [hy]))
      refine ⟨h.1, ?_⟩
      simp only [List.length_cons]
      omega
    | timeout =>
      rw [List.cons_append, runGhAux_timeout_retry attempt lastError
        (pre' ++ GhOutcome.exited 0 out err :: post) hne]
      dsimp only
      have h := ih (attempt + 1) (str "Command timed out") (fun y hy => hpre y (by simp [hy]))
      refine ⟨h.1, ?_⟩
      simp only [List.length_cons]
      omega
    | notFound => simp [isRetryFail] at hx

theorem runGhAux_prefix_notFound (pre : List GhOutcome) (attempt : Nat) (lastError : Str)
    (post : List GhOutcome)
    (hpre : ∀ x ∈ pre, isRetryFail x = true) :
    ((runGhAux attempt lastError (pre ++ .notFound :: post)).code,
      (runGhAux attempt lastError (pre ++ .notFound :: post)).stdout,
      (runGhAux attempt lastError (pre ++ .notFound :: post)).stderr) =
        (1, [], str "gh command not found") ∧
    (runGhAux attempt lastError (pre ++ .notFound :: post)).calls = pre.length + 1 := by
  induction pre generalizing attempt lastError with
  | nil => simp [runGhAux_notFound]
  | cons x pre' ih =>
    have hx : isRetryFail x = true := hpre x (by simp)
    have hne : pre' ++ GhOutcome.notFound :: post ≠ [] := by simp
    cases x with
    | exited c out' err' =>
      simp only [isRetryFail, Bool.and_eq_true, decide_eq_true_eq] at hx
      obtain ⟨hc, hr⟩ := hx
      rw [List.cons_append,
        runGhAux_exited_retry attempt lastError c out' err'
          (pre' ++ GhOutcome.notFound :: post) hc hr hne]
      dsimp only
      have h := ih (attempt + 1) err' (fun y hy => hpre y (by simp [hy]))
      refine ⟨h.1, ?_⟩
      simp only [List.length_cons]
      omega
    | timeout =>
      rw [List.cons_append, runGhAux_timeout_retry attempt lastError
        (pre' ++ GhOutcome.notFound :: post) hne]
      dsimp only
      have h := ih (attempt + 1) (str "Command timed out") (fun y hy => hpre y (by simp [hy]))
      refine ⟨h.1, ?_⟩
      simp only [List.length_cons]
      omega
    | notFound => simp [isRetryFail] at hx

/-- **C4** The command runner: at most the fixed attempt count of
invocations; a zero-exit invocation (after any run of retryable failures)
returns its output immediately; a missing executable returns the
non-retryable "gh command not found" failure immediately, ending the run;
the sleeps taken are exactly `base ^ attempt_index` seconds for the
zero-based attempts that were retried; and when every attempt fails
retryably, the last observed failure is returned after exactly
`MAX_RETRIES` invocations. -/
theorem run_gh_command_spec (outcomes : List GhOutcome)
    (hlen : outcomes.length = MAX_RETRIES) :
    (run_gh_command outcomes).calls ≤ MAX_RETRIES ∧
    (∀ pre out err post, outcomes = pre ++ .exited 0 out err :: post →
      (∀ x ∈ pre, isRetryFail x = true) →
      ((run_gh_command outcomes).code, (run_gh_command outcomes).stdout,
        (run_gh_command outcomes).stderr) = (0, out, err) ∧
      (run_gh_command outcomes).calls = pre.length + 1) ∧
    (∀ pre post, outcomes = pre ++ .notFound :: post →
      (∀ x ∈ pre, isRetryFail x = true) →
      ((run_gh_command outcomes).code, (run_gh_command outcomes).stdout,
        (run_gh_command outcomes).stderr) = (1, [], str "gh command not found") ∧
      (run_gh_command outcomes).calls = pre.length + 1) ∧
    (run_gh_command outcomes).sleeps =
      (List.range ((run_gh_command outcomes).calls - 1)).map
        (fun i => RETRY_BASE_DELAY ^ i) ∧
    (∀ hall : ∀ o ∈ outcomes, isRetryFail o = true,
      ∀ hne : outcomes ≠ [],
      ((run_gh_command outcomes).code, (run_gh_command outcomes).stdout,
        (run_gh_command outcomes).stderr) = failData (outcomes.getLast hne) ∧
      (run_gh_command outcomes).calls = MAX_RETRIES) := by
  refine ⟨?_, ?_, ?_, ?_, ?_⟩
  · rw [← hlen]
    exact runGhAux_calls_le 0 [] outcomes
  · intro pre out err post heq hpre
    subst heq
    exact runGhAux_prefix_success pre 0 [] out err post hpre
  · intro pre post heq hpre
    subst heq
    exact runGhAux_prefix_notFound pre 0 [] post hpre
  · simpa [run_gh_command] using runGhAux_sleeps 0 [] outcomes
  · intro hall hne
    have h := runGhAux_all_retryfail 0 [] outcomes hall hne
    exact ⟨h.1, h.2.trans hlen⟩

/-- Witness for C4 at concrete outcome lists of length `MAX_RETRIES`:
an immediate success, an immediate missing-executable failure, and an
all-retryable run ending with the last failure after all 3 attempts. -/
theorem run_gh_command_spec_witness :
    ((run_gh_command [.exited 0 (str "ok") [], .timeout, .timeout]).code,
      (run_gh_command [.exited 0 (str "ok") [], .timeout, .timeout]).stdout,
      (run_gh_command [.exited 0 (str "ok") [], .timeout, .timeout]).stderr) =
        (0, str "ok", []) ∧
    (run_gh_command [.exited 0 (str "ok") [], .timeout, .timeout]).calls = 1 ∧
    ((run_gh_command [.notFound, .timeout, .timeout]).code,
      (run_gh_command [.notFound, .timeout, .timeout]).stdout,
      (run_gh_command [.notFound, .timeout, .timeout]).stderr) =
        (1, [], str "gh command not found") ∧
    (run_gh_command [.timeout, .timeout, .exited 1 [] (str "rate limit")]).calls =
      MAX_RETRIES ∧
    (run_gh_command [.timeout, .timeout, .exited 1 [] (str "rate limit")]).sleeps = [1, 2] :=
  have h1 := run_gh_command_spec [.exited 0 (str "ok") [], .timeout, .timeout] (by decide)
  have h2 := run_gh_command_spec [.notFound, .timeout, .timeout] (by decide)
  have h3 := run_gh_command_spec [.timeout, .timeout, .exited 1 [] (str "rate limit")]
    (by decide)
  have hs1 := h1.2.1 [] (str "ok") [] [.timeout, .timeout] rfl (by decide)
  have hs2 := h2.2.2.1 [] [.timeout, .timeout] rfl (by decide)
  have hs3 := h3.2.2.2.2 (by decide) (by decide)
  ⟨hs1.1, hs1.2, hs2.1, hs3.2, by
    have hs := h3.2.2.2.1
    rw [hs3.2] at hs
    simpa [MAX_RETRIES, RETRY_BASE_DELAY, List.range_succ] using hs⟩

/-- An `{"text": ..., "checked": ...}` entry of `acceptance_criteria` /
`tasks`. -/
structure CheckItem where
  text : Str
  checked : Bool
deriving DecidableEq, Repr

/-- The `UserStory` dataclass. -/
structure UserStory where
  id : Str
  title : Str
  status : Str := str "Draft"
  priority : Str := str "should"
  story_points : Nat := 0
  epic : Str := []
  epic_label : Str := []
  user_story : Str := []
  acceptance_criteria : List CheckItem := []
  tasks : List CheckItem := []
  dependencies : List Nat := []
  notes : Str := []
  implementation_details : Str := []
  file_path : Str := []
  issue_number : Option Nat := none
deriving DecidableEq, Repr

/-- The desired label set `update_issue` computes:
`{epic_label, "priority-"+priority, "user-story"}`, plus `"done"` when the
status is (lowercased) "done", with empty labels removed. -/
def desired_labels (story : UserStory) : Finset Str :=
  let base : Finset Str := {story.epic_label, str "priority-" ++ story.priority, str "user-story"}
  let withDone := if pyLower story.status = str "done" then insert (str "done") base else base
  withDone.filter (· ≠ [])

/-- `labels_to_add = desired_labels - existing_label_names`. -/
def labels_to_add (story : UserStory) (existing_label_names : Finset Str) : Finset Str :=
  desired_labels story \ existing_label_names

/-- `labels_to_remove = {"done"} & existing_label_names if status.lower() !=
"done" else set()`. -/
def labels_to_remove (story : UserStory) (existing_label_names : Finset Str) : Finset Str :=
  if pyLower story.status ≠ str "done" then {str "done"} ∩ existing_label_names else ∅

/-- **C6** `update_issue`'s label diff: the labels added are exactly the
desired ones missing from the existing set; the labels removed are exactly
`{"done"} ∩ existing` when the status is not (case-insensitively) "done"
and nothing otherwise; no label other than "done" is ever removed. -/
theorem update_issue_label_ops (story : UserStory) (existing : Finset Str) :
    (∀ l, l ∈ labels_to_add story existing ↔
      (l ∈ desired_labels story ∧ l ∉ existing)) ∧
    (∀ l, l ∈ labels_to_remove story existing ↔
      (pyLower story.status ≠ str "done" ∧ l = str "done" ∧ l ∈ existing)) ∧
    labels_to_remove story existing ⊆ {str "done"} := by
  refine ⟨fun l => ?_, fun l => ?_, fun l hl => ?_⟩
  · simp [labels_to_add, Finset.mem_sdiff]
  · by_cases h : pyLower story.status = str "done"
    · simp [labels_to_remove, h]
    · simp [labels_to_remove, h]
  · by_cases h : pyLower story.status = str "done"
    · simp [labels_to_remove, h] at hl
    · simp only [labels_to_remove, if_pos h, Finset.mem_inter] at hl
      simpa using hl.1

/-- A developer-chosen story and existing label set exercising C6: a story
no longer "Done" whose issue still carries "done" drops exactly that label
and gains the missing priority label. -/
theorem update_issue_label_ops_witness :
    (str "priority-should" ∈ labels_to_add
      { id := str "US-001", title := str "T", status := str "Draft" }
      ({str "done", str "user-story"} : Finset Str) ↔
      (str "priority-should" ∈ desired_labels
        { id := str "US-001", title := str "T", status := str "Draft" } ∧
        str "priority-should" ∉ ({str "done", str "user-story"} : Finset Str))) ∧
    (str "done" ∈ labels_to_remove
      { id := str "US-001", title := str "T", status := str "Draft" }
      ({str "done", str "user-story"} : Finset Str) ↔
      (pyLower (str "Draft") ≠ str "done" ∧ str "done" = str "done" ∧
        str "done" ∈ ({str "done", str "user-story"} : Finset Str))) :=
  ⟨(update_issue_label_ops
      { id := str "US-001", title := str "T", status := str "Draft" }
      ({str "done", str "user-story"} : Finset Str)).1 (str "priority-should"),
   (update_issue_label_ops
      { id := str "US-001", title := str "T", status := str "Draft" }
      ({str "done", str "user-story"} : Finset Str)).2.1 (str "done")⟩

/-- `--direction` values. -/
inductive Direction
  | both
  | toGithub
  | fromGithub
deriving DecidableEq, Repr

/-- What `update_local_doc` reports for one story: the file changed, no
change was needed, or reading/writing the file failed (it returns `False`
for the last two; the caller discards the value either way). -/
inductive LocalDocResult
  | changed
  | unchanged
  | failed
deriving DecidableEq, Repr

/-- One story's interaction with GitHub during a run of `sync_stories`:
whether an issue with its id already exists, whether the outbound
`update_issue`/`create_issue` call returns success, and what
`update_local_doc` does for it inbound. -/
structure StorySync where
  hasIssue : Bool
  outboundOk : Bool
  localDoc : LocalDocResult
deriving DecidableEq, Repr

/-- The observable outcome of `sync_stories`: its boolean return value and
how many stories each direction's loop iterated over. -/
structure SyncRunResult where
  success : Bool
  outboundProcessed : Nat
  inboundProcessed : Nat
deriving DecidableEq, Repr

/-- The `=== Syncing to GitHub ===` loop: for each story, call
`update_issue` when an issue exists, else `create_issue`; on a falsy
result set `success = False`; every story is visited. -/
def outboundLoop (cases : List StorySync) (success : Bool) : Bool × Nat :=
  cases.foldl
    (fun acc c =>
      (if c.hasIssue then (if c.outboundOk then acc.1 else false)
        else (if c.outboundOk then acc.1 else false),
        acc.2 + 1))
    (success, 0)

/-- The `=== Syncing from GitHub ===` loop: `update_local_doc(story, issue,
dry_run)` is called for each story with a matching issue, and its return
value is discarded (line 752); `success` is not touched. -/
def inboundLoop (cases : List StorySync) : Nat :=
  cases.foldl (fun n _ => n + 1) 0

/-- `sync_stories` after repo resolution and parsing: run the outbound loop
when the direction includes it, then the inbound loop, and return
`success`. -/
def sync_stories (direction : Direction) (cases : List StorySync) : SyncRunResult :=
  let success := true
  let out :=
    if direction = .both ∨ direction = .toGithub then outboundLoop cases success
    else (success, 0)
  let inCount :=
    if direction = .both ∨ direction = .fromGithub then inboundLoop cases else 0
  ⟨out.1, out.2, inCount⟩

theorem outboundLoop_aux (cases : List StorySync) (b : Bool) (n : Nat) :
    cases.foldl
      (fun acc c =>
        (if c.hasIssue then (if c.outboundOk then acc.1 else false)
          else (if c.outboundOk then acc.1 else false),
          acc.2 + 1))
      (b, n) = (b && cases.all (·.outboundOk), n + cases.length) := by
  induction cases generalizing b n with
  | nil => simp
  | cons c cs ih =>
    simp only [List.foldl_cons, List.all_cons, List.length_cons]
    have hfirst :
        (if c.hasIssue then (if c.outboundOk then b else false)
          else (if c.outboundOk then b else false)) = (b && c.outboundOk) := by
      cases hok : c.outboundOk <;> cases c.hasIssue <;> simp
    rw [hfirst, ih]
    simp only [Prod.mk.injEq]
    constructor
    · cases c.outboundOk <;> simp
    · omega

theorem outboundLoop_spec (cases : List StorySync) (b : Bool) :
    (outboundLoop cases b).1 = (b && cases.all (·.outboundOk)) ∧
    (outboundLoop cases b).2 = cases.length := by
  unfold outboundLoop
  rw [outboundLoop_aux]
  simp

theorem inboundLoop_spec (cases : List StorySync) : inboundLoop cases = cases.length := by
  have h : ∀ (n : Nat), cases.foldl (fun n _ => n + 1) n = n + cases.length := by
    induction cases with
    | nil => simp
    | cons c cs ih =>
      intro n
      simp only [List.foldl_cons, ih, List.length_cons]
      omega
  simpa [inboundLoop] using h 0

/-- **C5 counterexample** The claim as stated is false on the code: with
direction `both` and a single story whose issue exists, whose outbound
update succeeds and whose inbound local-file patch fails, an inbound
per-story operation failed yet `sync_stories` still returns success
(`update_local_doc`'s return value is discarded at line 752). -/
theorem sync_stories_inbound_failure_ignored :
    ¬ ((sync_stories .both [⟨true, true, .failed⟩]).success = false ↔
        ∃ c ∈ [(⟨true, true, .failed⟩ : StorySync)],
          (c.outboundOk = false ∨ c.localDoc = .failed)) := by
  decide

/-- **C5 (amended)** The run-level result is failure iff the direction
includes outbound sync and at least one outbound create/update failed;
inbound local-file patch results never affect it; and no story's failure
prevents the remaining stories from being processed: both loops always
visit every story. -/
theorem sync_stories_result (direction : Direction) (cases : List StorySync) :
    ((sync_stories direction cases).success = false ↔
      ((direction = .both ∨ direction = .toGithub) ∧
        ∃ c ∈ cases, c.outboundOk = false)) ∧
    ((direction = .both ∨ direction = .toGithub) →
      (sync_stories direction cases).outboundProcessed = cases.length) ∧
    ((direction = .both ∨ direction = .fromGithub) →
      (sync_stories direction cases).inboundProcessed = cases.length) := by
  have hout := outboundLoop_spec cases true
  by_cases hdir : direction = .both ∨ direction = .toGithub
  · by_cases hdir2 : direction = .both ∨ direction = .fromGithub
    · refine ⟨?_, fun _ => ?_, fun _ => ?_⟩
      · simp only [sync_stories, if_pos hdir, if_pos hdir2, hdir, true_and]
        rw [if_pos trivial, hout.1]
        simp only [Bool.true_and, ← Bool.not_eq_true]
        simp [List.all_eq_true]
      · simp [sync_stories, if_pos hdir, if_pos hdir2, hout.2]
      · simp [sync_stories, if_pos hdir, if_pos hdir2, inboundLoop_spec]
    · refine ⟨?_, fun _ => ?_, fun h2 => absurd h2 hdir2⟩
      · simp only [sync_stories, if_pos hdir, if_neg hdir2, hdir, true_and]
        rw [if_pos trivial, hout.1]
        simp only [Bool.true_and, ← Bool.not_eq_true]
        simp [List.all_eq_true]
      · simp [sync_stories, if_pos hdir, if_neg hdir2, hout.2]
  · have hdir2 : direction = .both ∨ direction = .fromGithub := by
      cases direction with
      | both => simp at hdir
      | toGithub => simp at hdir
      | fromGithub => simp
    refine ⟨?_, fun h => absurd h hdir, fun _ => ?_⟩
    · simp [sync_stories, if_neg hdir, if_pos hdir2, hdir]
    · simp [sync_stories, if_neg hdir, if_pos hdir2, inboundLoop_spec]

/-- `"\n".join(parts)`. -/
def joinNL : List Str → Str
  | [] => []
  | [a] => a
  | a :: b :: rest => a ++ '\n' :: joinNL (b :: rest)

/-- A decimal digit character (`str(int)`'s digits). -/
def digitCh (d : Nat) : Char :=
  match d % 10 with
  | 0 => '0'
  | 1 => '1'
  | 2 => '2'
  | 3 => '3'
  | 4 => '4'
  | 5 => '5'
  | 6 => '6'
  | 7 => '7'
  | 8 => '8'
  | _ => '9'

/-- Fuel-driven decimal rendering (the fuel `n + 1` always suffices). -/
def natToStrAux : Nat → Nat → Str
  | 0, _ => []
  | fuel + 1, n =>
    if n < 10 then [digitCh n] else natToStrAux fuel (n / 10) ++ [digitCh (n % 10)]

/-- Python `str(n)` for a natural number. -/
def natToStr (n : Nat) : Str := natToStrAux (n + 1) n

/-- The f-string `f"- {checkbox} {text}"` with `checkbox` equal to
`"[x]"` when checked and `"[ ]"` otherwise. -/
def checkboxLine (it : CheckItem) : Str :=
  str "- " ++ (if it.checked then str "[x]" else str "[ ]") ++ str " " ++ it.text

/-- The f-string `f"- #{dep}"`. -/
def depLine (dep : Nat) : Str := str "- #" ++ natToStr dep

/-- `f"**Story Points:** {story.story_points}"`. -/
def storyPointsLine (story : UserStory) : Str :=
  str "**Story Points:** " ++ natToStr story.story_points

/-- The `body_parts` list `build_issue_body` accumulates, in order of its
appends: a non-empty section contributes its `"## <Name>\n"` header part,
its content part(s) and an `""` separator part; the story-points line is
always appended last. -/
def bodyParts (story : UserStory) : List Str :=
  (if story.user_story ≠ [] then
    [str "## User Story\n", story.user_story, []] else [])
  ++ (if story.acceptance_criteria ≠ [] then
    str "## Acceptance Criteria\n" :: (story.acceptance_criteria.map checkboxLine ++ [[]])
    else [])
  ++ (if story.tasks ≠ [] then
    str "## Tasks\n" :: (story.tasks.map checkboxLine ++ [[]]) else [])
  ++ (if story.implementation_details ≠ [] then
    [str "## Implementation Details\n", story.implementation_details, []] else [])
  ++ (if story.dependencies ≠ [] then
    str "## Dependencies\n" :: (story.dependencies.map depLine ++ [[]]) else [])
  ++ (if story.notes ≠ [] then
    [str "## Notes\n", story.notes, []] else [])
  ++ [storyPointsLine story]

/-- `build_issue_body`: `"\n".join(body_parts)`. -/
def build_issue_body (story : UserStory) : Str := joinNL (bodyParts story)

/-- Spec-shaped: one free-text section, its header line, blank line,
content, blank line. -/
def specTextSection (header content : Str) : Str :=
  header ++ str "\n\n" ++ content ++ str "\n\n"

/-- Spec-shaped: one list section, its header line, blank line, the items
one per line, blank line. -/
def specListSection (header : Str) (lines : List Str) : Str :=
  header ++ str "\n\n" ++ joinNL lines ++ str "\n\n"

/-- Spec-shaped issue body, following the spec's sentence: the ordered
concatenation of exactly the non-empty sections — User Story, Acceptance
Criteria (checkbox list), Tasks (checkbox list), Implementation Details,
Dependencies (`- #<n>` list), Notes — each with its header, followed by
the always-present trailing story-points line; an empty field contributes
nothing. -/
def buildIssueBodySpec (story : UserStory) : Str :=
  (if story.user_story = [] then []
    else specTextSection (str "## User Story") story.user_story)
  ++ (if story.acceptance_criteria = [] then []
    else specListSection (str "## Acceptance Criteria")
      (story.acceptance_criteria.map checkboxLine))
  ++ (if story.tasks = [] then []
    else specListSection (str "## Tasks") (story.tasks.map checkboxLine))
  ++ (if story.implementation_details = [] then []
    else specTextSection (str "## Implementation Details") story.implementation_details)
  ++ (if story.dependencies = [] then []
    else specListSection (str "## Dependencies") (story.dependencies.map depLine))
  ++ (if story.notes = [] then []
    else specTextSection (str "## Notes") story.notes)
  ++ storyPointsLine story

/-- Each part of the join except the last is emitted followed by `'\n'`. -/
def joinPre (parts : List Str) : Str :=
  parts.foldr (fun a acc => a ++ '\n' :: acc) []

theorem joinPre_cons (b : Str) (zs : List Str) :
    joinPre (b :: zs) = b ++ '\n' :: joinPre zs := rfl

theorem joinPre_append (xs ys : List Str) :
    joinPre (xs ++ ys) = joinPre xs ++ joinPre ys := by
  induction xs with
  | nil => rfl
  | cons a xs ih =>
    rw [List.cons_append, joinPre_cons, joinPre_cons, ih, List.append_assoc]
    rfl

theorem joinNL_eq_joinPre (xs : List Str) (last : Str) :
    joinNL (xs ++ [last]) = joinPre xs ++ last := by
  induction xs with
  | nil => simp [joinNL, joinPre]
  | cons a xs ih =>
    cases xs with
    | nil => simp [joinNL, joinPre]
    | cons b xs' =>
      simp only [List.cons_append, joinNL, joinPre_cons] at ih ⊢
      simp [ih]

theorem joinPre_nonempty (lines : List Str) (hne : lines ≠ []) :
    joinPre lines = joinNL lines ++ ['\n'] := by
  induction lines with
  | nil => exact absurd rfl hne
  | cons a rest ih =>
    cases rest with
    | nil => simp [joinPre, joinNL]
    | cons b rest' =>
      rw [joinPre_cons, joinNL, ih (by simp)]
      simp

theorem joinPre_text_section (header content : Str) :
    joinPre [header ++ ['\n'], content, []] =
      header ++ str "\n\n" ++ content ++ str "\n\n" := by
  simp [joinPre, str]

theorem joinPre_list_section (header : Str) (lines : List Str) (hne : lines ≠ []) :
    joinPre ((header ++ ['\n']) :: (lines ++ [[]])) =
      header ++ str "\n\n" ++ joinNL lines ++ str "\n\n" := by
  rw [joinPre_cons, joinPre_append, joinPre_nonempty lines hne]
  have h2 : joinPre [([] : Str)] = ['\n'] := rfl
  rw [h2]
  simp [str]

/-- **C7** The outbound issue body is exactly the ordered concatenation of
the non-empty sections (User Story, Acceptance Criteria, Tasks,
Implementation Details, Dependencies, Notes), each with its header,
followed by the always-present trailing story-points line; an empty field
contributes no header and no content. -/
theorem build_issue_body_sections (story : UserStory) :
    build_issue_body story = buildIssueBodySpec story := by
  have hUS :
      joinPre (if story.user_story ≠ [] then
          [str "## User Story\n", story.user_story, []] else []) =
        (if story.user_story = [] then []
          else specTextSection (str "## User Story") story.user_story) := by
    by_cases h : story.user_story = []
    · simp [h, joinPre]
    · rw [if_pos h, if_neg h,
        show (str "## User Story\n" : Str) = str "## User Story" ++ ['\n'] from by decide,
        joinPre_text_section]
      rfl
  have hAC :
      joinPre (if story.acceptance_criteria ≠ [] then
          str "## Acceptance Criteria\n" ::
            (story.acceptance_criteria.map checkboxLine ++ [[]]) else []) =
        (if story.acceptance_criteria = [] then []
          else specListSection (str "## Acceptance Criteria")
            (story.acceptance_criteria.map checkboxLine)) := by
    by_cases h : story.acceptance_criteria = []
    · simp [h, joinPre]
    · rw [if_pos h, if_neg h,
        show (str "## Acceptance Criteria\n" : Str) =
          str "## Acceptance Criteria" ++ ['\n'] from by decide,
        joinPre_list_section _ _ (by simpa using h)]
      rfl
  have hT :
      joinPre (if story.tasks ≠ [] then
          str "## Tasks\n" :: (story.tasks.map checkboxLine ++ [[]]) else []) =
        (if story.tasks = [] then []
          else specListSection (str "## Tasks") (story.tasks.map checkboxLine)) := by
    by_cases h : story.tasks = []
    · simp [h, joinPre]
    · rw [if_pos h, if_neg h,
        show (str "## Tasks\n" : Str) = str "## Tasks" ++ ['\n'] from by decide,
        joinPre_list_section _ _ (by simpa using h)]
      rfl
  have hID :
      joinPre (if story.implementation_details ≠ [] then
          [str "## Implementation Details\n", story.implementation_details, []] else []) =
        (if story.implementation_details = [] then []
          else specTextSection (str "## Implementation Details")
            story.implementation_details) := by
    by_cases h : story.implementation_details = []
    · simp [h, joinPre]
    · rw [if_pos h, if_neg h,
        show (str "## Implementation Details\n" : Str) =
          str "## Implementation Details" ++ ['\n'] from by decide,
        joinPre_text_section]
      rfl
  have hDep :
      joinPre (if story.dependencies ≠ [] then
          str "## Dependencies\n" :: (story.dependencies.map depLine ++ [[]]) else []) =
        (if story.dependencies = [] then []
          else specListSection (str "## Dependencies") (story.dependencies.map depLine)) := by
    by_cases h : story.dependencies = []
    · simp [h, joinPre]
    · rw [if_pos h, if_neg h,
        show (str "## Dependencies\n" : Str) = str "## Dependencies" ++ ['\n'] from by decide,
        joinPre_list_section _ _ (by simpa using h)]
      rfl
  have hNotes :
      joinPre (if story.notes ≠ [] then
          [str "## Notes\n", story.notes, []] else []) =
        (if story.notes = [] then []
          else specTextSection (str "## Notes") story.notes) := by
    by_cases h : story.notes = []
    · simp [h, joinPre]
    · rw [if_pos h, if_neg h,
        show (str "## Notes\n" : Str) = str "## Notes" ++ ['\n'] from by decide,
        joinPre_text_section]
      rfl
  unfold build_issue_body bodyParts buildIssueBodySpec
  rw [joinNL_eq_joinPre, joinPre_append, joinPre_append, joinPre_append, joinPre_append,
    joinPre_append, hUS, hAC, hT, hID, hDep, hNotes]

/-- `re.search`: try a position-anchored matcher at every position, left to
right (also at the empty suffix). -/
def reSearch (f : Str → Option α) : Str → Option α
  | [] => f []
  | s@(_ :: rest) => (f s).orElse fun _ => reSearch f rest

/-- The tail of `re.search(..., re.MULTILINE)` with a `^`-anchored pattern:
try the matcher after each newline. -/
def searchMLAux (f : Str → Option α) : Str → Option α
  | [] => none
  | '\n' :: rest => (f rest).orElse fun _ => searchMLAux f rest
  | _ :: rest => searchMLAux f rest

/-- `re.search(..., re.MULTILINE)` with a `^`-anchored pattern: try the
matcher at the start and after each newline. -/
def searchML (f : Str → Option α) (s : Str) : Option α :=
  (f s).orElse fun _ => searchMLAux f s

/-- The last index of `s` holding a character other than `c`. -/
def lastIdxNot (c : Char) (s : Str) : Option Nat :=
  match s.reverse.findIdx? (fun x => decide (x ≠ c)) with
  | some j => some (s.length - 1 - j)
  | none => none

/-- `\s*(.+?)(?:\n|$)` at the start of `s`: greedy whitespace, then a lazy
non-empty capture of non-newline characters up to a newline or the end.
When everything is whitespace the greedy run backtracks to leave the last
non-newline character as the capture. -/
def wsStarCapture (s : Str) : Option Str :=
  let W := (s.takeWhile isPySpace).length
  if W < s.length then some ((s.drop W).takeWhile (· ≠ '\n'))
  else match lastIdxNot '\n' s with
    | some k => some ((s.drop k).takeWhile (· ≠ '\n'))
    | none => none

/-- `r"\*\*Status:\*\*\s*(.+?)(?:\n|$)"` anchored at `s`. -/
def tryStatusAt (s : Str) : Option Str :=
  if (str "**Status:**").isPrefixOf s then wsStarCapture (s.drop 11) else none

/-- The status extractor of `parse_user_story`. -/
def extractStatus (content : Str) : Option Str := reSearch tryStatusAt content

/-- `\w` (ASCII model). -/
def isWordChar (c : Char) : Bool := c.isAlphanum || c = '_'

/-- `r"\*\*(\w+)\*\*\s*-\s*(?:Critical|Important|Nice)"` anchored at `s`. -/
def tryPriorityAt (s : Str) : Option Str :=
  match s with
  | '*' :: '*' :: rest =>
    let w := rest.takeWhile isWordChar
    if w = [] then none
    else
      let s2 := rest.drop w.length
      if (str "**").isPrefixOf s2 then
        let s3 := s2.drop 2
        let s4 := s3.drop (s3.takeWhile isPySpace).length
        match s4 with
        | '-' :: s5 =>
          let s6 := s5.drop (s5.takeWhile isPySpace).length
          if (str "Critical").isPrefixOf s6 || (str "Important").isPrefixOf s6 ||
              (str "Nice").isPrefixOf s6 then some w else none
        | _ => none
      else none
  | _ => none

/-- The priority extractor of `parse_user_story`. -/
def extractPriority (content : Str) : Option Str := reSearch tryPriorityAt content

/-- `int(...)` on a run of decimal digits. -/
def digitsToNat (ds : Str) : Nat := ds.foldl (fun n c => n * 10 + (c.toNat - 48)) 0

/-- `r"^\*\*Story Points:\*\*\s*(\d+)"` anchored at `s`. -/
def tryPointsAt (s : Str) : Option Nat :=
  if (str "**Story Points:**").isPrefixOf s then
    let s2 := s.drop 17
    let s3 := s2.drop (s2.takeWhile isPySpace).length
    let ds := s3.takeWhile Char.isDigit
    if ds = [] then none else some (digitsToNat ds)
  else none

/-- The story-points extractor (MULTILINE-anchored). -/
def extractPoints (content : Str) : Option Nat := searchML tryPointsAt content

/-- `r"^#\s+(.+?)(?:\s*\n|$)"` anchored at `s`: `#`, at least one
whitespace character, then the line's content; a following newline absorbs
the trailing whitespace, the end of the document does not. -/
def tryTitleAt (s : Str) : Option Str :=
  match s with
  | '#' :: rest =>
    let W := (rest.takeWhile isPySpace).length
    if W = 0 then none
    else
      let after := rest.drop W
      if after = [] then
        match lastIdxNot '\n' rest with
        | some k => if 1 ≤ k then some [(rest.drop k).headD ' '] else none
        | none => none
      else
        let line := after.takeWhile (· ≠ '\n')
        if line.length < after.length then
          some (line.reverse.dropWhile isPySpace).reverse
        else some after
  | _ => none

/-- The title extractor (MULTILINE-anchored). -/
def extractTitle (content : Str) : Option Str := searchML tryTitleAt content

/-- The lazy DOTALL capture `(.*?)(?=\n##|\Z)`: everything up to the first
`"\n##"` or the end. -/
def captureToNextHeading : Str → Str
  | [] => []
  | c :: rest =>
    if (str "\n##").isPrefixOf (c :: rest) then [] else c :: captureToNextHeading rest

/-- The last index `k` (if any) with `s[k] = s[k+1] = '\n'`. -/
def lastDoubleNlAux : Str → Nat → Option Nat → Option Nat
  | '\n' :: '\n' :: rest, i, _ => lastDoubleNlAux ('\n' :: rest) (i + 1) (some i)
  | _ :: rest, i, best => lastDoubleNlAux rest (i + 1) best
  | [], _, best => best

/-- The last doubled-newline position of a whitespace run: where the greedy
`\s*` of the section regex backtracks to before its literal `\n\n`. -/
def lastDoubleNl (ws : Str) : Option Nat := lastDoubleNlAux ws 0 none

/-- `rf"## {name}\s*\n\n(.*?)(?=\n##|\Z)"` (DOTALL) anchored at `s`. -/
def trySectionAt (name : Str) (s : Str) : Option Str :=
  if (str "## " ++ name).isPrefixOf s then
    let s2 := s.drop (3 + name.length)
    let W := (s2.takeWhile isPySpace).length
    match lastDoubleNl (s2.take W) with
    | some k => some (captureToNextHeading (s2.drop (k + 2)))
    | none => none
  else none

/-- The shared `## <name>` section extractor of `parse_user_story` and
`parse_checkbox_section`. -/
def extractSection (name : Str) (content : Str) : Option Str :=
  reSearch (trySectionAt name) content

/-- Python `"...".split("\n")`. -/
def splitOnNl : Str → List Str
  | [] => [[]]
  | '\n' :: rest => [] :: splitOnNl rest
  | c :: rest =>
    match splitOnNl rest with
    | [] => [[c]]
    | l :: ls => (c :: l) :: ls

/-- `line.startswith("- [x]") or line.startswith("- [X]")`. -/
def cbSecChecked (line : Str) : Bool :=
  (str "- [x]").isPrefixOf line || (str "- [X]").isPrefixOf line

/-- `re.sub(r"^- \[.\]\s*", "", line)`. -/
def cbSecText (line : Str) : Str :=
  match line with
  | '-' :: ' ' :: '[' :: c :: ']' :: rest =>
    if c = '\n' then line else rest.dropWhile isPySpace
  | _ => line

/-- The per-line loop of `parse_checkbox_section`: strip each line, keep
the ones starting with `"- ["`, record text and checked state. -/
def itemsFromSection (sec : Str) : List CheckItem :=
  (splitOnNl sec).filterMap fun line0 =>
    let line := pyStrip line0
    if (str "- [").isPrefixOf line then some ⟨cbSecText line, cbSecChecked line⟩
    else none

/-- `parse_checkbox_section`. -/
def parse_checkbox_section (content : Str) (name : Str) : List CheckItem :=
  match extractSection name content with
  | some sec => itemsFromSection sec
  | none => []

/-- `re.finditer(r"#(\d+)", ...)`: every `#<digits>` token, in order
(scanning one character at a time is equivalent to the non-overlapping
scan because a match's tail contains no `#`). -/
def collectDeps : Str → List Nat
  | [] => []
  | '#' :: rest =>
    let ds := rest.takeWhile Char.isDigit
    if ds = [] then collectDeps rest else digitsToNat ds :: collectDeps rest
  | _ :: rest => collectDeps rest

/-- `EPIC_LABELS` (insertion order preserved). -/
def EPIC_LABELS : List (Str × Str) :=
  [(str "epic-1", str "epic-1-infrastructure"),
   (str "epic-2", str "epic-2-environments"),
   (str "epic-3", str "epic-3-database"),
   (str "epic-4", str "epic-4-observability"),
   (str "epic-5", str "epic-5-runners"),
   (str "epic-6", str "epic-6-security")]

/-- The epic-label lookup: first key occurring as a substring of the story
file's parent-folder name wins, else empty. -/
def epicLabelFor (epic : Str) : Str :=
  match EPIC_LABELS.find? (fun kv => hasSub kv.1 epic) with
  | some kv => kv.2
  | none => []

/-- `re.match(r"(US-\d+)", filename)`: the story id at the start of the
filename stem. -/
def matchStoryId (filename : Str) : Option Str :=
  match filename with
  | 'U' :: 'S' :: '-' :: rest =>
    let ds := rest.takeWhile Char.isDigit
    if ds = [] then none else some (str "US-" ++ ds)
  | _ => none

/-- `parse_user_story`, over the file's stem `filename`, its text
`content` and its parent folder name `parent` (the I/O part of the
function — reading the file — is the caller's input here). -/
def parse_user_story (filename content parent : Str) : Option UserStory :=
  match matchStoryId filename with
  | none => none
  | some story_id =>
    some {
      id := story_id
      title := (extractTitle content).getD filename
      status :=
        match extractStatus content with
        | some s => pyStrip s
        | none => str "Draft"
      priority :=
        match extractPriority content with
        | some w => pyLower w
        | none => str "should"
      story_points := (extractPoints content).getD 0
      epic := parent
      epic_label := epicLabelFor parent
      user_story :=
        match extractSection (str "User Story") content with
        | some sec => pyStrip sec
        | none => []
      acceptance_criteria := parse_checkbox_section content (str "Acceptance Criteria")
      tasks := parse_checkbox_section content (str "Tasks")
      dependencies :=
        match extractSection (str "Dependencies") content with
        | some sec => collectDeps sec
        | none => []
      notes :=
        match extractSection (str "Notes") content with
        | some sec => pyStrip sec
        | none => []
      implementation_details :=
        match extractSection (str "Implementation Details") content with
        | some sec => pyStrip sec
        | none => []
      file_path := filename
      issue_number := none }

/-- **C8** Parsing is total: it returns a story exactly when the filename
stem matches the `US-<digits>` pattern (else the skip signal `none`), and
every absent or unmatched field takes its stated default — title falls
back to the filename, status to "Draft", priority to "should", story
points to 0, and every section to the empty string/list. -/
theorem parse_user_story_total (filename content parent : Str) :
    ((parse_user_story filename content parent).isSome ↔
      (matchStoryId filename).isSome) ∧
    (∀ st, parse_user_story filename content parent = some st →
      (extractTitle content = none → st.title = filename) ∧
      (extractStatus content = none → st.status = str "Draft") ∧
      (extractPriority content = none → st.priority = str "should") ∧
      (extractPoints content = none → st.story_points = 0) ∧
      (extractSection (str "User Story") content = none → st.user_story = []) ∧
      (extractSection (str "Acceptance Criteria") content = none →
        st.acceptance_criteria = []) ∧
      (extractSection (str "Tasks") content = none → st.tasks = []) ∧
      (extractSection (str "Dependencies") content = none → st.dependencies = []) ∧
      (extractSection (str "Notes") content = none → st.notes = []) ∧
      (extractSection (str "Implementation Details") content = none →
        st.implementation_details = [])) := by
  cases h : matchStoryId filename with
  | none =>
    constructor
    · simp [parse_user_story, h]
    · intro st hst
      simp [parse_user_story, h] at hst
  | some sid =>
    constructor
    · simp [parse_user_story, h]
    · intro st hst
      simp only [parse_user_story, h, Option.some.injEq] at hst
      subst hst
      refine ⟨?_, ?_, ?_, ?_, ?_, ?_, ?_, ?_, ?_, ?_⟩ <;> intro hn <;>
        simp [hn, parse_checkbox_section]

/-- Witness for C8 at a concrete file: stem "US-001-setup" with empty
content parses to the all-defaults story; a stem not matching the pattern
is skipped. -/
theorem parse_user_story_total_witness :
    ((parse_user_story (str "US-001-setup") [] []).isSome ↔
      (matchStoryId (str "US-001-setup")).isSome) ∧
    ({ id := str "US-001", title := str "US-001-setup",
        file_path := str "US-001-setup" } : UserStory).status = str "Draft" ∧
    ({ id := str "US-001", title := str "US-001-setup",
        file_path := str "US-001-setup" } : UserStory).priority = str "should" ∧
    ({ id := str "US-001", title := str "US-001-setup",
        file_path := str "US-001-setup" } : UserStory).story_points = 0 ∧
    parse_user_story (str "README") [] [] = none :=
  have h := parse_user_story_total (str "US-001-setup") ([] : Str) ([] : Str)
  have h2 := h.2
    { id := str "US-001", title := str "US-001-setup", file_path := str "US-001-setup" }
    (by decide)
  ⟨h.1, h2.2.1 rfl, h2.2.2.1 rfl, h2.2.2.2.1 rfl, by decide⟩

/-- `\s+(.+?)` followed by a newline-or-end, at the start of `s`: at least
one whitespace character (greedy), then a lazy non-empty capture of
non-newline characters running to the next newline or the end.  Returns
`(whitespace, capture)`.  When `s` is all whitespace the greedy run
backtracks until the capture can start at the last non-newline
character. -/
def wsPlusCapture (s : Str) : Option (Str × Str) :=
  if s.takeWhile isPySpace = [] then none
  else if s.dropWhile isPySpace ≠ [] then
    some (s.takeWhile isPySpace, (s.dropWhile isPySpace).takeWhile (· != '\n'))
  else
    match lastIdxNot '\n' s with
    | some k =>
      if 1 ≤ k then some (s.take k, (s.drop k).takeWhile (· != '\n')) else none
    | none => none

/-- `CHECKBOX_PATTERN = r"- \[(.)\]\s+(.+?)(?=\n|$)"` anchored at `s`:
returns the state character, the whitespace run and the capture; the
lookahead consumes nothing. -/
def tryCheckboxAny (s : Str) : Option (Char × Str × Str) :=
  match s with
  | '-' :: ' ' :: '[' :: c :: ']' :: rest =>
    if c = '\n' then none
    else (wsPlusCapture rest).map fun p => (c, p.1, p.2)
  | _ => none

/-- `r"- \[<marks>\]\s+(.+?)(?:\n|$)"` anchored at `s` for a set of state
characters: returns the capture and the total length the match consumes
(the trailing newline, when present, is consumed). -/
def tryCheckboxMarked (mark : Char → Bool) (s : Str) : Option (Str × Nat) :=
  match s with
  | '-' :: ' ' :: '[' :: c :: ']' :: rest =>
    if mark c then
      (wsPlusCapture rest).map fun p =>
        let base := 5 + p.1.length + p.2.length
        (p.2, if base < s.length then base + 1 else base)
    else none
  | _ => none

/-- `CHECKBOX_CHECKED_PATTERN = r"- \[[xX]\]\s+(.+?)(?:\n|$)"`. -/
def tryChecked : Str → Option (Str × Nat) :=
  tryCheckboxMarked (fun c => c = 'x' || c = 'X')

/-- `CHECKBOX_UNCHECKED_PATTERN = r"- \[ \]\s+(.+?)(?:\n|$)"`. -/
def tryUnchecked : Str → Option (Str × Nat) :=
  tryCheckboxMarked (fun c => c = ' ')

/-- `re.finditer` driver: scan left to right; at a match, emit its capture
and resume after the consumed text; otherwise advance one character.  The
fuel (`s.length` at the top level) only bounds the recursion. -/
def scanF (try_ : Str → Option (Str × Nat)) : Nat → Str → List Str
  | 0, _ => []
  | fuel + 1, s =>
    match try_ s with
    | some (cap, n) => cap :: scanF try_ fuel (s.drop n)
    | none =>
      match s with
      | [] => []
      | _ :: rest => scanF try_ fuel rest

/-- All captures of a checkbox pattern over a body, in order. -/
def reFindCaps (try_ : Str → Option (Str × Nat)) (s : Str) : List Str :=
  scanF try_ s.length s

/-- `issue_checked`: the stripped captures of the checked pattern over the
issue body (a Python set, modelled as the capture list with membership). -/
def issue_checked (issue_body : Str) : List Str :=
  (reFindCaps tryChecked issue_body).map pyStrip

/-- `issue_unchecked`. -/
def issue_unchecked (issue_body : Str) : List Str :=
  (reFindCaps tryUnchecked issue_body).map pyStrip

/-- The inner `update_checkbox` replacement function of
`update_local_doc`, applied to one match `(c, ws, cap)` of
`CHECKBOX_PATTERN`: force `[x]`/`[ ]` by stripped-text lookup, else return
`match.group(0)` unchanged. -/
def update_checkbox (ick iuck : List Str) (c : Char) (ws cap : Str) : Str :=
  let text := pyStrip cap
  if text ∈ ick then str "- [x] " ++ text
  else if text ∈ iuck then str "- [ ] " ++ text
  else '-' :: ' ' :: '[' :: c :: ']' :: (ws ++ cap)

/-- `re.sub` driver for `CHECKBOX_PATTERN.sub(update_checkbox, content)`:
at a match, emit the replacement and resume after the match (the lookahead
leaves the newline in place); otherwise copy one character. -/
def subF (ick iuck : List Str) : Nat → Str → Str
  | 0, s => s
  | fuel + 1, s =>
    match tryCheckboxAny s with
    | some (c, ws, cap) =>
      update_checkbox ick iuck c ws cap ++
        subF ick iuck fuel (s.drop (5 + ws.length + cap.length))
    | none =>
      match s with
      | [] => []
      | ch :: rest => ch :: subF ick iuck fuel rest

/-- `CHECKBOX_PATTERN.sub(update_checkbox, content)`. -/
def checkbox_sub (ick iuck : List Str) (s : Str) : Str := subF ick iuck s.length s

/-- The checkbox-reconciliation step of `update_local_doc` (lines
639-661): extract the checked/unchecked text sets from the issue body and
rewrite every checkbox match of the local content against them. -/
def update_local_checkboxes (issue_body content : Str) : Str :=
  checkbox_sub (issue_checked issue_body) (issue_unchecked issue_body) content

theorem length_takeWhileLe (p : Char → Bool) (l : Str) :
    (l.takeWhile p).length ≤ l.length := by
  induction l with
  | nil => simp
  | cons a l ih =>
    by_cases h : p a
    · simp only [List.takeWhile_cons_of_pos h, List.length_cons]
      omega
    · simp [List.takeWhile_cons_of_neg h]

theorem wsPlusCapture_le (s ws cap : Str) (h : wsPlusCapture s = some (ws, cap)) :
    ws.length + cap.length ≤ s.length := by
  unfold wsPlusCapture at h
  by_cases h1 : s.takeWhile isPySpace = []
  · rw [if_pos h1] at h
    exact absurd h (by simp)
  · rw [if_neg h1] at h
    by_cases h2 : s.dropWhile isPySpace ≠ []
    · rw [if_pos h2] at h
      simp only [Option.some.injEq, Prod.mk.injEq] at h
      obtain ⟨hws, hcap⟩ := h
      subst hws
      subst hcap
      have hc := length_takeWhileLe (· != '\n') (s.dropWhile isPySpace)
      have htd : (s.takeWhile isPySpace).length + (s.dropWhile isPySpace).length = s.length := by
        rw [← List.length_append, List.takeWhile_append_dropWhile isPySpace s]
      omega
    · rw [if_neg h2] at h
      cases hk : lastIdxNot '\n' s with
      | none =>
        rw [hk] at h
        exact absurd h (by simp)
      | some k =>
        rw [hk] at h
        dsimp only at h
        by_cases hk1 : 1 ≤ k
        · rw [if_pos hk1] at h
          simp only [Option.some.injEq, Prod.mk.injEq] at h
          obtain ⟨hws, hcap⟩ := h
          subst hws
          subst hcap
          have hc := length_takeWhileLe (· != '\n') (s.drop k)
          have htd : (s.take k).length + (s.drop k).length = s.length :=
            congrArg List.length (List.take_append_drop k s) ▸ (List.length_append _ _).symm ▸ rfl
          omega
        · rw [if_neg hk1] at h
          exact absurd h (by simp)

theorem tryCheckboxMarked_bounds (mark : Char → Bool) (s cap : Str) (n : Nat)
    (h : tryCheckboxMarked mark s = some (cap, n)) :
    1 ≤ n ∧ n ≤ s.length := by
  unfold tryCheckboxMarked at h
  split at h
  next c rest =>
    by_cases hm : mark c
    · rw [if_pos hm] at h
      cases hw : wsPlusCapture rest with
      | none => rw [hw] at h; exact absurd h (by simp)
      | some p =>
        obtain ⟨ws', cap'⟩ := p
        rw [hw] at h
        simp only [Option.map_some', Option.some.injEq, Prod.mk.injEq] at h
        obtain ⟨hcap, hn⟩ := h
        have hle := wsPlusCapture_le rest ws' cap' hw
        subst hn
        simp only [List.length_cons]
        split
        next hlt => omega
        next hlt => omega
    · rw [if_neg hm] at h
      exact absurd h (by simp)
  next => exact absurd h (by simp)

theorem tryCheckboxMarked_shape (mark : Char → Bool) (s cap : Str) (n : Nat)
    (h : tryCheckboxMarked mark s = some (cap, n)) :
    ∃ c rest, s = '-' :: ' ' :: '[' :: c :: ']' :: rest ∧ mark c = true := by
  unfold tryCheckboxMarked at h
  split at h
  next c rest =>
    by_cases hm : mark c
    · exact ⟨c, rest, rfl, hm⟩
    · rw [if_neg hm] at h
      exact absurd h (by simp)
  next => exact absurd h (by simp)

theorem scanF_fuel (try_ : Str → Option (Str × Nat))
    (hb : ∀ s cap n, try_ s = some (cap, n) → 1 ≤ n ∧ n ≤ s.length) :
    ∀ fuel s, s.length ≤ fuel → scanF try_ fuel s = scanF try_ s.length s := by
  intro fuel
  induction fuel using Nat.strong_induction_on with
  | _ fuel ih =>
    intro s hs
    cases fuel with
    | zero =>
      have hnil : s = [] := List.eq_nil_of_length_eq_zero (by omega)
      subst hnil
      rfl
    | succ m =>
      cases s with
      | nil =>
        cases htry : try_ [] with
        | some p =>
          obtain ⟨cap, n⟩ := p
          have := hb _ _ _ htry
          simp at this
          omega
        | none => simp [scanF, htry]
      | cons ch rest =>
        simp only [List.length_cons] at hs
        show scanF try_ (m + 1) (ch :: rest) = scanF try_ (rest.length + 1) (ch :: rest)
        cases htry : try_ (ch :: rest) with
        | some p =>
          obtain ⟨cap, n⟩ := p
          obtain ⟨hn1, hn2⟩ := hb _ _ _ htry
          simp only [List.length_cons] at hn2
          have hlen : ((ch :: rest).drop n).length ≤ rest.length := by
            simp only [List.length_drop, List.length_cons]
            omega
          simp only [scanF, htry]
          rw [ih m (by omega) _ (le_trans hlen (by omega)),
            ih rest.length (by omega) _ hlen]
        | none =>
          simp only [scanF, htry]
          rw [ih m (by omega) rest (by omega)]

theorem tryChecked_bounds : ∀ s cap n, tryChecked s = some (cap, n) → 1 ≤ n ∧ n ≤ s.length :=
  fun s cap n h => tryCheckboxMarked_bounds _ s cap n h

theorem tryUnchecked_bounds :
    ∀ s cap n, tryUnchecked s = some (cap, n) → 1 ≤ n ∧ n ≤ s.length :=
  fun s cap n h => tryCheckboxMarked_bounds _ s cap n h

theorem reFindCaps_step_none (try_ : Str → Option (Str × Nat)) (ch : Char) (rest : Str)
    (h : try_ (ch :: rest) = none) :
    reFindCaps try_ (ch :: rest) = reFindCaps try_ rest := by
  unfold reFindCaps
  show scanF try_ (rest.length + 1) (ch :: rest) = scanF try_ rest.length rest
  simp [scanF, h]

theorem reFindCaps_step_some (try_ : Str → Option (Str × Nat))
    (hb : ∀ s cap n, try_ s = some (cap, n) → 1 ≤ n ∧ n ≤ s.length)
    (s cap : Str) (n : Nat) (h : try_ s = some (cap, n)) :
    reFindCaps try_ s = cap :: reFindCaps try_ (s.drop n) := by
  obtain ⟨hn1, hn2⟩ := hb s cap n h
  unfold reFindCaps
  obtain ⟨m, hm⟩ : ∃ m, s.length = m + 1 := ⟨s.length - 1, by omega⟩
  rw [hm]
  simp only [scanF, h]
  rw [scanF_fuel try_ hb m (s.drop n) (by simp only [List.length_drop]; omega)]

theorem hasSub_cons_false (pat : Str) (x : Char) (u : Str)
    (h : hasSub pat (x :: u) = false) :
    pat.isPrefixOf (x :: u) = false ∧ hasSub pat u = false := by
  simp only [hasSub, Bool.or_eq_false_iff] at h
  exact h

theorem reFindCaps_skip (try_ : Str → Option (Str × Nat))
    (hb : ∀ s cap n, try_ s = some (cap, n) → 1 ≤ n ∧ n ≤ s.length)
    (hshape : ∀ s cap n, try_ s = some (cap, n) →
      ∃ c rest, s = '-' :: ' ' :: '[' :: c :: ']' :: rest) :
    ∀ u v, hasSub (str "- [") u = false → (v = [] ∨ v.head? = some '\n') →
      reFindCaps try_ (u ++ v) = reFindCaps try_ v := by
  intro u
  induction u with
  | nil => simp
  | cons x u' ih =>
    intro v hu hv
    obtain ⟨hpref, htail⟩ := hasSub_cons_false _ _ _ hu
    have hnone : try_ (x :: (u' ++ v)) = none := by
      cases htry : try_ (x :: (u' ++ v)) with
      | none => rfl
      | some p =>
        obtain ⟨cap, n⟩ := p
        obtain ⟨c, rest, heq⟩ := hshape _ _ _ htry
        exfalso
        cases u' with
        | nil =>
          cases v with
          | nil => simp at heq
          | cons a v' =>
            simp only [List.nil_append] at heq
            injection heq with h1 h2
            injection h2 with h3 h4
            rcases hv with hvv | hvv
            · simp at hvv
            · rw [List.head?_cons, Option.some.injEq] at hvv
              rw [hvv] at h3
              simp at h3
        | cons y u'' =>
          cases u'' with
          | nil =>
            cases v with
            | nil => simp at heq
            | cons a v' =>
              simp only [List.cons_append, List.singleton_append] at heq
              injection heq with h1 h2
              injection h2 with h3 h4
              injection h4 with h5 h6
              rcases hv with hvv | hvv
              · simp at hvv
              · rw [List.head?_cons, Option.some.injEq] at hvv
                rw [hvv] at h5
                simp at h5
          | cons z u''' =>
            simp only [List.cons_append] at heq
            injection heq with h1 h2
            injection h2 with h3 h4
            injection h4 with h5 h6
            subst h1
            subst h3
            subst h5
            simp [str, List.isPrefixOf] at hpref
    rw [show (x :: u') ++ v = x :: (u' ++ v) from rfl,
      reFindCaps_step_none try_ _ _ hnone]
    exact ih v htail hv

theorem tryChecked_shape (s cap : Str) (n : Nat) (h : tryChecked s = some (cap, n)) :
    ∃ c rest, s = '-' :: ' ' :: '[' :: c :: ']' :: rest :=
  (tryCheckboxMarked_shape _ s cap n h).imp fun c hc => hc.imp fun rest hr => hr.1

theorem tryUnchecked_shape (s cap : Str) (n : Nat) (h : tryUnchecked s = some (cap, n)) :
    ∃ c rest, s = '-' :: ' ' :: '[' :: c :: ']' :: rest :=
  (tryCheckboxMarked_shape _ s cap n h).imp fun c hc => hc.imp fun rest hr => hr.1

theorem length_dropWhileLe (p : Char → Bool) (l : Str) :
    (l.dropWhile p).length ≤ l.length := by
  induction l with
  | nil => simp
  | cons a l ih =>
    by_cases h : p a
    · rw [List.dropWhile_cons_of_pos h]
      simp only [List.length_cons]
      omega
    · simp [List.dropWhile_cons_of_neg h]

theorem strip_head_not_space (c0 : Char) (t' : Str)
    (ht : pyStrip (c0 :: t') = c0 :: t') : isPySpace c0 = false := by
  by_contra hsp
  simp only [Bool.not_eq_false] at hsp
  have h1 : (List.dropWhile isPySpace (c0 :: t')).length ≤ t'.length := by
    rw [List.dropWhile_cons_of_pos hsp]
    exact length_dropWhileLe isPySpace t'
  have h2 : (pyStrip (c0 :: t')).length ≤ (List.dropWhile isPySpace (c0 :: t')).length := by
    unfold pyStrip
    rw [List.length_reverse]
    calc (((c0 :: t').dropWhile isPySpace).reverse.dropWhile isPySpace).length
        ≤ ((c0 :: t').dropWhile isPySpace).reverse.length :=
          length_dropWhileLe isPySpace _
      _ = ((c0 :: t').dropWhile isPySpace).length := List.length_reverse _
  rw [ht] at h2
  simp only [List.length_cons] at h2
  omega

theorem takeWhile_neNl (t v : Str) (ht : ∀ c ∈ t, c ≠ '\n')
    (hv : v = [] ∨ v.head? = some '\n') :
    (t ++ v).takeWhile (· != '\n') = t := by
  induction t with
  | nil =>
    rcases hv with h | h
    · simp [h]
    · cases v with
      | nil => simp
      | cons a v' =>
        rw [List.head?_cons, Option.some.injEq] at h
        subst h
        rw [List.nil_append, List.takeWhile_cons_of_neg (by simp)]
  | cons c t' ih =>
    rw [List.cons_append,
      List.takeWhile_cons_of_pos (by simp [ht c (by simp)]),
      ih (fun c hc => ht c (by simp [hc]))]

theorem wsPlusCapture_space (c0 : Char) (t' v : Str)
    (hc0 : isPySpace c0 = false) (hth : ∀ c ∈ c0 :: t', c ≠ '\n')
    (hv : v = [] ∨ v.head? = some '\n') :
    wsPlusCapture (' ' :: ((c0 :: t') ++ v)) = some ([' '], c0 :: t') := by
  have htake : (' ' :: ((c0 :: t') ++ v)).takeWhile isPySpace = [' '] := by
    rw [List.takeWhile_cons_of_pos (by decide), List.cons_append,
      List.takeWhile_cons_of_neg (by simp [hc0])]
  have hdrop : (' ' :: ((c0 :: t') ++ v)).dropWhile isPySpace = (c0 :: t') ++ v := by
    rw [List.dropWhile_cons_of_pos (by decide), List.cons_append,
      List.dropWhile_cons_of_neg (by simp [hc0])]
  unfold wsPlusCapture
  rw [if_neg (by rw [htake]; simp), if_pos (by rw [hdrop]; simp), htake, hdrop,
    takeWhile_neNl (c0 :: t') v hth hv]

theorem tryCheckboxMarked_line_mid (mark : Char → Bool) (c c0 : Char) (t' z : Str)
    (hm : mark c = true) (hc0 : isPySpace c0 = false)
    (hth : ∀ ch ∈ c0 :: t', ch ≠ '\n') :
    tryCheckboxMarked mark
        ('-' :: ' ' :: '[' :: c :: ']' :: ' ' :: ((c0 :: t') ++ ('\n' :: z))) =
      some (c0 :: t', (c0 :: t').length + 7) := by
  simp only [tryCheckboxMarked]
  rw [if_pos hm, wsPlusCapture_space c0 t' ('\n' :: z) hc0 hth (by simp)]
  simp only [Option.map_some', Option.some.injEq, Prod.mk.injEq, true_and,
    List.length_cons, List.length_append, List.length_nil]
  split
  next h => omega
  next h => omega

theorem tryCheckboxMarked_line_end (mark : Char → Bool) (c c0 : Char) (t' : Str)
    (hm : mark c = true) (hc0 : isPySpace c0 = false)
    (hth : ∀ ch ∈ c0 :: t', ch ≠ '\n') :
    tryCheckboxMarked mark ('-' :: ' ' :: '[' :: c :: ']' :: ' ' :: ((c0 :: t') ++ [])) =
      some (c0 :: t', (c0 :: t').length + 6) := by
  simp only [tryCheckboxMarked]
  rw [if_pos hm, wsPlusCapture_space c0 t' [] hc0 hth (by simp)]
  simp only [Option.map_some', Option.some.injEq, Prod.mk.injEq, true_and,
    List.length_cons, List.length_append, List.length_nil]
  split
  next h => omega
  next h => omega

theorem tryCheckboxMarked_mark_false (mark : Char → Bool) (c : Char) (rest : Str)
    (hm : mark c = false) :
    tryCheckboxMarked mark ('-' :: ' ' :: '[' :: c :: ']' :: rest) = none := by
  simp [tryCheckboxMarked, hm]

theorem tryCheckboxMarked_nl (mark : Char → Bool) (z : Str) :
    tryCheckboxMarked mark ('\n' :: z) = none := rfl

theorem reFindCaps_skip_nl (try_ : Str → Option (Str × Nat))
    (hb : ∀ s cap n, try_ s = some (cap, n) → 1 ≤ n ∧ n ≤ s.length)
    (hshape : ∀ s cap n, try_ s = some (cap, n) →
      ∃ c rest, s = '-' :: ' ' :: '[' :: c :: ']' :: rest)
    (hnl : ∀ z, try_ ('\n' :: z) = none)
    (u z : Str) (hu : hasSub (str "- [") u = false) :
    reFindCaps try_ (u ++ '\n' :: z) = reFindCaps try_ z := by
  rw [reFindCaps_skip try_ hb hshape u ('\n' :: z) hu (by simp),
    reFindCaps_step_none try_ _ _ (hnl z)]

theorem hasSub_dash_free (a t : Str) (ha : ∀ c ∈ a, c ≠ '-')
    (ht : hasSub (str "- [") t = false) :
    hasSub (str "- [") (a ++ t) = false := by
  induction a with
  | nil => simpa
  | cons x a' ih =>
    rw [List.cons_append]
    cases t with
    | nil =>
      simp only [List.append_nil] at ih ⊢
      simp only [hasSub, Bool.or_eq_false_iff]
      refine ⟨?_, ih (fun c hc => ha c (by simp [hc]))⟩
      have hx : x ≠ '-' := ha x (by simp)
      show (List.isPrefixOf (str "- [") (x :: a')) = false
      rw [show (str "- [") = '-' :: ' ' :: '[' :: [] from rfl]
      simp only [List.isPrefixOf, Bool.and_eq_false_iff]
      left
      simp [hx, Ne.symm hx]
    | cons b t' =>
      simp only [hasSub, Bool.or_eq_false_iff]
      refine ⟨?_, ih (fun c hc => ha c (by simp [hc]))⟩
      have hx : x ≠ '-' := ha x (by simp)
      show (List.isPrefixOf (str "- [") (x :: (a' ++ b :: t'))) = false
      rw [show (str "- [") = '-' :: ' ' :: '[' :: [] from rfl]
      simp only [List.isPrefixOf, Bool.and_eq_false_iff]
      left
      simp [hx, Ne.symm hx]

theorem reFindCaps_skip_end (try_ : Str → Option (Str × Nat))
    (hb : ∀ s cap n, try_ s = some (cap, n) → 1 ≤ n ∧ n ≤ s.length)
    (hshape : ∀ s cap n, try_ s = some (cap, n) →
      ∃ c rest, s = '-' :: ' ' :: '[' :: c :: ']' :: rest)
    (u : Str) (hu : hasSub (str "- [") u = false) :
    reFindCaps try_ u = [] := by
  have h := reFindCaps_skip try_ hb hshape u [] hu (Or.inl rfl)
  rw [List.append_nil] at h
  rw [h]
  rfl

/-- A well-formed checkbox item text as `build_issue_body` writes it and
the inbound patterns read it back: non-empty, single-line, stripped, and
free of the `"- ["` marker. -/
def wfItemText (t : Str) : Prop :=
  t ≠ [] ∧ (∀ c ∈ t, c ≠ '\n') ∧ pyStrip t = t ∧ hasSub (str "- [") t = false

theorem reFindCaps_item_match_mid (mark : Char → Bool) (c : Char) (t z : Str)
    (hm : mark c = true) (hw : wfItemText t) :
    reFindCaps (tryCheckboxMarked mark)
        (('-' :: ' ' :: '[' :: c :: ']' :: ' ' :: t) ++ '\n' :: z) =
      t :: reFindCaps (tryCheckboxMarked mark) z := by
  obtain ⟨c0, t', rfl⟩ := List.exists_cons_of_ne_nil hw.1
  have hc0 := strip_head_not_space c0 t' hw.2.2.1
  have hmatch := tryCheckboxMarked_line_mid mark c c0 t' z hm hc0 hw.2.1
  rw [show (('-' :: ' ' :: '[' :: c :: ']' :: ' ' :: (c0 :: t')) ++ '\n' :: z) =
      ('-' :: ' ' :: '[' :: c :: ']' :: ' ' :: ((c0 :: t') ++ ('\n' :: z))) from by simp,
    reFindCaps_step_some _ (tryCheckboxMarked_bounds mark) _ _ _ hmatch]
  congr 1
  rw [show ('-' :: ' ' :: '[' :: c :: ']' :: ' ' :: ((c0 :: t') ++ ('\n' :: z))) =
      (('-' :: ' ' :: '[' :: c :: ']' :: ' ' :: ((c0 :: t') ++ ['\n'])) ++ z) from by simp,
    show (c0 :: t').length + 7 =
      ('-' :: ' ' :: '[' :: c :: ']' :: ' ' :: ((c0 :: t') ++ ['\n'])).length from by
        simp [List.length_append]
        try omega,
    List.drop_left]

theorem reFindCaps_item_match_end (mark : Char → Bool) (c : Char) (t : Str)
    (hm : mark c = true) (hw : wfItemText t) :
    reFindCaps (tryCheckboxMarked mark) ('-' :: ' ' :: '[' :: c :: ']' :: ' ' :: t) = [t] := by
  obtain ⟨c0, t', rfl⟩ := List.exists_cons_of_ne_nil hw.1
  have hc0 := strip_head_not_space c0 t' hw.2.2.1
  have hmatch := tryCheckboxMarked_line_end mark c c0 t' hm hc0 hw.2.1
  rw [show ('-' :: ' ' :: '[' :: c :: ']' :: ' ' :: (c0 :: t')) =
      ('-' :: ' ' :: '[' :: c :: ']' :: ' ' :: ((c0 :: t') ++ [])) from by simp,
    reFindCaps_step_some _ (tryCheckboxMarked_bounds mark) _ _ _ hmatch]
  rw [show (c0 :: t').length + 6 =
      ('-' :: ' ' :: '[' :: c :: ']' :: ' ' :: ((c0 :: t') ++ [])).length from by
        simp [List.length_append],
    List.drop_length]
  rfl

theorem reFindCaps_item_other_mid (mark : Char → Bool) (c : Char) (t z : Str)
    (hm : mark c = false) (hcd : c ≠ '-') (hw : wfItemText t) :
    reFindCaps (tryCheckboxMarked mark)
        (('-' :: ' ' :: '[' :: c :: ']' :: ' ' :: t) ++ '\n' :: z) =
      reFindCaps (tryCheckboxMarked mark) z := by
  have h0 : tryCheckboxMarked mark
      ('-' :: ' ' :: '[' :: c :: ']' :: (' ' :: t ++ '\n' :: z)) = none :=
    tryCheckboxMarked_mark_false mark c _ hm
  rw [show (('-' :: ' ' :: '[' :: c :: ']' :: ' ' :: t) ++ '\n' :: z) =
      ('-' :: (' ' :: '[' :: c :: ']' :: ' ' :: t ++ '\n' :: z)) from by simp,
    reFindCaps_step_none _ _ _ (by simpa using h0)]
  have hu : hasSub (str "- [") (' ' :: '[' :: c :: ']' :: ' ' :: t) = false := by
    have := hasSub_dash_free ([' ', '[', c, ']', ' ']) t
      (by
        intro x hx
        simp only [List.mem_cons, List.not_mem_nil, or_false] at hx
        rcases hx with rfl | rfl | rfl | rfl | rfl
        · decide
        · decide
        · exact hcd
        · decide
        · decide)
      hw.2.2.2
    simpa using this
  rw [show (' ' :: '[' :: c :: ']' :: ' ' :: t ++ '\n' :: z) =
      ((' ' :: '[' :: c :: ']' :: ' ' :: t) ++ '\n' :: z) from by simp]
  exact reFindCaps_skip_nl _ (tryCheckboxMarked_bounds mark)
    (fun s cap n h => (tryCheckboxMarked_shape mark s cap n h).imp
      fun c hc => hc.imp fun rest hr => hr.1)
    (tryCheckboxMarked_nl mark) _ z hu

theorem reFindCaps_item_other_end (mark : Char → Bool) (c : Char) (t : Str)
    (hm : mark c = false) (hcd : c ≠ '-') (hw : wfItemText t) :
    reFindCaps (tryCheckboxMarked mark) ('-' :: ' ' :: '[' :: c :: ']' :: ' ' :: t) = [] := by
  have h0 : tryCheckboxMarked mark ('-' :: ' ' :: '[' :: c :: ']' :: (' ' :: t)) = none :=
    tryCheckboxMarked_mark_false mark c _ hm
  rw [reFindCaps_step_none _ _ _ (by simpa using h0)]
  have hu : hasSub (str "- [") (' ' :: '[' :: c :: ']' :: ' ' :: t) = false := by
    have := hasSub_dash_free ([' ', '[', c, ']', ' ']) t
      (by
        intro x hx
        simp only [List.mem_cons, List.not_mem_nil, or_false] at hx
        rcases hx with rfl | rfl | rfl | rfl | rfl
        · decide
        · decide
        · exact hcd
        · decide
        · decide)
      hw.2.2.2
    simpa using this
  exact reFindCaps_skip_end _ (tryCheckboxMarked_bounds mark)
    (fun s cap n h => (tryCheckboxMarked_shape mark s cap n h).imp
      fun c hc => hc.imp fun rest hr => hr.1)
    _ hu

/-- One join-part of the issue body, classified for the inbound scanners:
a checkbox item line, or any other part (headers, free text, dependency
lines, the points line, the `""` separators). -/
inductive BodySeg
  | item (checked : Bool) (t : Str)
  | free (u : Str)

/-- The text of one body segment. -/
def segStr : BodySeg → Str
  | .item true t => str "- [x] " ++ t
  | .item false t => str "- [ ] " ++ t
  | .free u => u

/-- Well-formedness of a segment for exact inbound extraction. -/
def segWF : BodySeg → Prop
  | .item _ t => wfItemText t
  | .free u => hasSub (str "- [") u = false

/-- The contribution of a segment to the checked-item extraction. -/
def segChecked : BodySeg → Option Str
  | .item true t => some t
  | _ => none

/-- The contribution of a segment to the unchecked-item extraction. -/
def segUnchecked : BodySeg → Option Str
  | .item false t => some t
  | _ => none

theorem reFindCaps_segs :
    ∀ segs : List BodySeg, (∀ g ∈ segs, segWF g) →
      reFindCaps (tryCheckboxMarked (fun c => c = 'x' || c = 'X'))
          (joinNL (segs.map segStr)) = segs.filterMap segChecked ∧
      reFindCaps (tryCheckboxMarked (fun c => c = ' '))
          (joinNL (segs.map segStr)) = segs.filterMap segUnchecked := by
  intro segs
  induction segs with
  | nil =>
    intro _
    constructor <;> rfl
  | cons g rest ih =>
    intro hwf
    have hg : segWF g := hwf g (by simp)
    have ih' := ih fun x hx => hwf x (List.mem_cons_of_mem _ hx)
    cases rest with
    | nil =>
      simp only [List.map_cons, List.map_nil, joinNL, List.filterMap_cons,
        List.filterMap_nil]
      cases g with
      | item b t =>
        have hwt : wfItemText t := hg
        cases b with
        | true =>
          rw [show segStr (.item true t) = '-' :: ' ' :: '[' :: 'x' :: ']' :: ' ' :: t
            from rfl]
          constructor
          · rw [reFindCaps_item_match_end _ 'x' t (by decide) hwt]
            rfl
          · rw [reFindCaps_item_other_end _ 'x' t (by decide) (by decide) hwt]
            rfl
        | false =>
          rw [show segStr (.item false t) = '-' :: ' ' :: '[' :: ' ' :: ']' :: ' ' :: t
            from rfl]
          constructor
          · rw [reFindCaps_item_other_end _ ' ' t (by decide) (by decide) hwt]
            rfl
          · rw [reFindCaps_item_match_end _ ' ' t (by decide) hwt]
            rfl
      | free u =>
        have hu : hasSub (str "- [") u = false := hg
        rw [show segStr (.free u) = u from rfl]
        constructor
        · rw [reFindCaps_skip_end _ (tryCheckboxMarked_bounds _)
            (fun s cap n h => (tryCheckboxMarked_shape _ s cap n h).imp
              fun c hc => hc.imp fun r hr => hr.1) u hu]
          rfl
        · rw [reFindCaps_skip_end _ (tryCheckboxMarked_bounds _)
            (fun s cap n h => (tryCheckboxMarked_shape _ s cap n h).imp
              fun c hc => hc.imp fun r hr => hr.1) u hu]
          rfl
    | cons g2 rest' =>
      have hjoin : joinNL ((g :: g2 :: rest').map segStr) =
          segStr g ++ '\n' :: joinNL ((g2 :: rest').map segStr) := by
        simp only [List.map_cons, joinNL]
      rw [hjoin]
      simp only [List.filterMap_cons (l := g2 :: rest')]
      cases g with
      | item b t =>
        have hwt : wfItemText t := hg
        cases b with
        | true =>
          rw [show segStr (.item true t) = '-' :: ' ' :: '[' :: 'x' :: ']' :: ' ' :: t
            from rfl]
          constructor
          · rw [reFindCaps_item_match_mid _ 'x' t _ (by decide) hwt, ih'.1]
            rfl
          · rw [reFindCaps_item_other_mid _ 'x' t _ (by decide) (by decide) hwt, ih'.2]
            rfl
        | false =>
          rw [show segStr (.item false t) = '-' :: ' ' :: '[' :: ' ' :: ']' :: ' ' :: t
            from rfl]
          constructor
          · rw [reFindCaps_item_other_mid _ ' ' t _ (by decide) (by decide) hwt, ih'.1]
            rfl
          · rw [reFindCaps_item_match_mid _ ' ' t _ (by decide) hwt, ih'.2]
            rfl
      | free u =>
        have hu : hasSub (str "- [") u = false := hg
        rw [show segStr (.free u) = u from rfl]
        constructor
        · rw [reFindCaps_skip_nl _ (tryCheckboxMarked_bounds _)
            (fun s cap n h => (tryCheckboxMarked_shape _ s cap n h).imp
              fun c hc => hc.imp fun r hr => hr.1)
            (tryCheckboxMarked_nl _) u _ hu, ih'.1]
          rfl
        · rw [reFindCaps_skip_nl _ (tryCheckboxMarked_bounds _)
            (fun s cap n h => (tryCheckboxMarked_shape _ s cap n h).imp
              fun c hc => hc.imp fun r hr => hr.1)
            (tryCheckboxMarked_nl _) u _ hu, ih'.2]
          rfl

theorem isPrefixOf_dash_bracket (s : Str) (h : ∀ c ∈ s, c ≠ '[') :
    (str "- [").isPrefixOf s = false := by
  match s with
  | [] => rfl
  | [a] => simp [str, List.isPrefixOf]
  | [a, b] => simp [str, List.isPrefixOf]
  | a :: b :: c :: rest =>
    have hc : c ≠ '[' := h c (by simp)
    rw [show (str "- [") = ['-', ' ', '['] from rfl]
    simp only [List.isPrefixOf, Bool.and_eq_false_iff]
    right
    right
    left
    simp [Ne.symm hc]

theorem hasSub_no_bracket (u : Str) (h : ∀ c ∈ u, c ≠ '[') :
    hasSub (str "- [") u = false := by
  induction u with
  | nil => rfl
  | cons x u' ih =>
    simp only [hasSub, Bool.or_eq_false_iff]
    exact ⟨isPrefixOf_dash_bracket _ h, ih fun c hc => h c (by simp [hc])⟩

theorem digitCh_ne_bracket (d : Nat) : digitCh d ≠ '[' := by
  unfold digitCh
  split <;> decide

theorem natToStrAux_no_bracket : ∀ fuel n, ∀ c ∈ natToStrAux fuel n, c ≠ '[' := by
  intro fuel
  induction fuel with
  | zero => intro n c hc; simp [natToStrAux] at hc
  | succ m ih =>
    intro n c hc
    unfold natToStrAux at hc
    by_cases hn : n < 10
    · rw [if_pos hn] at hc
      simp only [List.mem_singleton] at hc
      subst hc
      exact digitCh_ne_bracket n
    · rw [if_neg hn] at hc
      rw [List.mem_append] at hc
      rcases hc with hc | hc
      · exact ih (n / 10) c hc
      · simp only [List.mem_singleton] at hc
        subst hc
        exact digitCh_ne_bracket (n % 10)

theorem depLine_no_marker (d : Nat) : hasSub (str "- [") (depLine d) = false := by
  apply hasSub_no_bracket
  intro c hc
  unfold depLine at hc
  rw [List.mem_append] at hc
  rcases hc with hc | hc
  · rw [show (str "- #") = ['-', ' ', '#'] from rfl] at hc
    simp only [List.mem_cons, List.not_mem_nil, or_false] at hc
    rcases hc with rfl | rfl | rfl <;> decide
  · rw [show natToStr d = natToStrAux (d + 1) d from rfl] at hc
    exact natToStrAux_no_bracket _ _ c hc

theorem storyPointsLine_no_marker (story : UserStory) :
    hasSub (str "- [") (storyPointsLine story) = false := by
  apply hasSub_no_bracket
  intro c hc
  unfold storyPointsLine at hc
  rw [List.mem_append] at hc
  rcases hc with hc | hc
  · rw [show (str "**Story Points:** ") =
      ['*', '*', 'S', 't', 'o', 'r', 'y', ' ', 'P', 'o', 'i', 'n', 't', 's', ':', '*', '*', ' ']
      from rfl] at hc
    simp only [List.mem_cons, List.not_mem_nil, or_false] at hc
    rcases hc with rfl | rfl | rfl | rfl | rfl | rfl | rfl | rfl | rfl | rfl | rfl | rfl |
      rfl | rfl | rfl | rfl | rfl | rfl <;> decide
  · rw [show natToStr story.story_points = natToStrAux (story.story_points + 1)
      story.story_points from rfl] at hc
    exact natToStrAux_no_bracket _ _ c hc

/-- The body parts, classified as segments. -/
def segsOf (story : UserStory) : List BodySeg :=
  (if story.user_story ≠ [] then
    [.free (str "## User Story\n"), .free story.user_story, .free []] else [])
  ++ (if story.acceptance_criteria ≠ [] then
    .free (str "## Acceptance Criteria\n") ::
      (story.acceptance_criteria.map (fun it => .item it.checked it.text) ++ [.free []])
    else [])
  ++ (if story.tasks ≠ [] then
    .free (str "## Tasks\n") ::
      (story.tasks.map (fun it => .item it.checked it.text) ++ [.free []]) else [])
  ++ (if story.implementation_details ≠ [] then
    [.free (str "## Implementation Details\n"), .free story.implementation_details,
      .free []] else [])
  ++ (if story.dependencies ≠ [] then
    .free (str "## Dependencies\n") ::
      (story.dependencies.map (fun d => .free (depLine d)) ++ [.free []]) else [])
  ++ (if story.notes ≠ [] then
    [.free (str "## Notes\n"), .free story.notes, .free []] else [])
  ++ [.free (storyPointsLine story)]

theorem segStr_item (it : CheckItem) : segStr (.item it.checked it.text) = checkboxLine it := by
  cases it with
  | mk t b => cases b <;> rfl

theorem segsOf_map (story : UserStory) : (segsOf story).map segStr = bodyParts story := by
  have hmapAC :
      (story.acceptance_criteria.map (fun it => BodySeg.item it.checked it.text)).map segStr =
        story.acceptance_criteria.map checkboxLine := by
    rw [List.map_map]
    exact List.map_congr_left fun it _ => segStr_item it
  have hmapT :
      (story.tasks.map (fun it => BodySeg.item it.checked it.text)).map segStr =
        story.tasks.map checkboxLine := by
    rw [List.map_map]
    exact List.map_congr_left fun it _ => segStr_item it
  have hmapD :
      (story.dependencies.map (fun d => BodySeg.free (depLine d))).map segStr =
        story.dependencies.map depLine := by
    rw [List.map_map]
    rfl
  unfold segsOf bodyParts
  simp only [List.map_append, apply_ite (List.map segStr), List.map_cons, List.map_nil,
    List.map_append, hmapAC, hmapT, hmapD]
  rfl

theorem filterMap_free_map (f : Nat → Str) (l : List Nat) (pick : BodySeg → Option Str)
    (hfree : ∀ u, pick (.free u) = none) :
    (l.map (fun d => BodySeg.free (f d))).filterMap pick = [] := by
  induction l with
  | nil => rfl
  | cons d l ih => simp [List.filterMap_cons, hfree, ih]

theorem items_filterMap_checked (l : List CheckItem) :
    (l.map (fun it => BodySeg.item it.checked it.text)).filterMap segChecked =
      (l.filter (·.checked)).map (·.text) := by
  induction l with
  | nil => rfl
  | cons it l ih =>
    cases hc : it.checked <;>
      simp [List.filterMap_cons, List.filter_cons, segChecked, hc, ih]

theorem items_filterMap_unchecked (l : List CheckItem) :
    (l.map (fun it => BodySeg.item it.checked it.text)).filterMap segUnchecked =
      (l.filter (fun it => !it.checked)).map (·.text) := by
  induction l with
  | nil => rfl
  | cons it l ih =>
    cases hc : it.checked <;>
      simp [List.filterMap_cons, List.filter_cons, segUnchecked, hc, ih]

theorem segsOf_wf (story : UserStory)
    (hitems : ∀ it ∈ story.acceptance_criteria ++ story.tasks, wfItemText it.text)
    (hus : hasSub (str "- [") story.user_story = false)
    (himpl : hasSub (str "- [") story.implementation_details = false)
    (hnotes : hasSub (str "- [") story.notes = false) :
    ∀ g ∈ segsOf story, segWF g := by
  intro g hg
  unfold segsOf at hg
  simp only [List.mem_append, List.mem_singleton] at hg
  have hAC : ∀ it ∈ story.acceptance_criteria, wfItemText it.text := fun it h =>
    hitems it (List.mem_append_left _ h)
  have hT : ∀ it ∈ story.tasks, wfItemText it.text := fun it h =>
    hitems it (List.mem_append_right _ h)
  rcases hg with ((((((hg | hg) | hg) | hg) | hg) | hg) | hg)
  · split at hg
    · simp only [List.mem_cons, List.not_mem_nil, or_false] at hg
      rcases hg with rfl | rfl | rfl
      · show hasSub (str "- [") (str "## User Story\n") = false
        decide
      · exact hus
      · show hasSub (str "- [") [] = false
        rfl
    · simp at hg
  · split at hg
    · simp only [List.mem_cons, List.mem_append, List.mem_singleton, List.mem_map,
        List.not_mem_nil, or_false] at hg
      rcases hg with rfl | ⟨it, hit, rfl⟩ | rfl
      · show hasSub (str "- [") (str "## Acceptance Criteria\n") = false
        decide
      · exact hAC it hit
      · show hasSub (str "- [") [] = false
        rfl
    · simp at hg
  · split at hg
    · simp only [List.mem_cons, List.mem_append, List.mem_singleton, List.mem_map,
        List.not_mem_nil, or_false] at hg
      rcases hg with rfl | ⟨it, hit, rfl⟩ | rfl
      · show hasSub (str "- [") (str "## Tasks\n") = false
        decide
      · exact hT it hit
      · show hasSub (str "- [") [] = false
        rfl
    · simp at hg
  · split at hg
    · simp only [List.mem_cons, List.not_mem_nil, or_false] at hg
      rcases hg with rfl | rfl | rfl
      · show hasSub (str "- [") (str "## Implementation Details\n") = false
        decide
      · exact himpl
      · show hasSub (str "- [") [] = false
        rfl
    · simp at hg
  · split at hg
    · simp only [List.mem_cons, List.mem_append, List.mem_singleton, List.mem_map,
        List.not_mem_nil, or_false] at hg
      rcases hg with rfl | ⟨d, _, rfl⟩ | rfl
      · show hasSub (str "- [") (str "## Dependencies\n") = false
        decide
      · exact depLine_no_marker d
      · show hasSub (str "- [") [] = false
        rfl
    · simp at hg
  · split at hg
    · simp only [List.mem_cons, List.not_mem_nil, or_false] at hg
      rcases hg with rfl | rfl | rfl
      · show hasSub (str "- [") (str "## Notes\n") = false
        decide
      · exact hnotes
      · show hasSub (str "- [") [] = false
        rfl
    · simp at hg
  · subst hg
    exact storyPointsLine_no_marker story

theorem segsOf_filterMap_checked (story : UserStory) :
    (segsOf story).filterMap segChecked =
      ((story.acceptance_criteria ++ story.tasks).filter (·.checked)).map (·.text) := by
  have hfree : ∀ u, segChecked (.free u) = none := fun u => rfl
  have hUS : (if story.user_story ≠ [] then
      [BodySeg.free (str "## User Story\n"), BodySeg.free story.user_story,
        BodySeg.free []] else []).filterMap segChecked = [] := by
    split <;> rfl
  have hAC : (if story.acceptance_criteria ≠ [] then
      BodySeg.free (str "## Acceptance Criteria\n") ::
        (story.acceptance_criteria.map (fun it => BodySeg.item it.checked it.text) ++
          [BodySeg.free []]) else []).filterMap segChecked =
      (story.acceptance_criteria.filter (·.checked)).map (·.text) := by
    by_cases h : story.acceptance_criteria = []
    · simp [h]
    · rw [if_pos h]
      simp only [List.filterMap_cons, List.filterMap_append, List.filterMap_nil,
        segChecked, items_filterMap_checked, List.append_nil]
  have hT : (if story.tasks ≠ [] then
      BodySeg.free (str "## Tasks\n") ::
        (story.tasks.map (fun it => BodySeg.item it.checked it.text) ++
          [BodySeg.free []]) else []).filterMap segChecked =
      (story.tasks.filter (·.checked)).map (·.text) := by
    by_cases h : story.tasks = []
    · simp [h]
    · rw [if_pos h]
      simp only [List.filterMap_cons, List.filterMap_append, List.filterMap_nil,
        segChecked, items_filterMap_checked, List.append_nil]
  have hID : (if story.implementation_details ≠ [] then
      [BodySeg.free (str "## Implementation Details\n"),
        BodySeg.free story.implementation_details, BodySeg.free []]
      else []).filterMap segChecked = [] := by
    split <;> rfl
  have hDep : (if story.dependencies ≠ [] then
      BodySeg.free (str "## Dependencies\n") ::
        (story.dependencies.map (fun d => BodySeg.free (depLine d)) ++
          [BodySeg.free []]) else []).filterMap segChecked = [] := by
    split
    · simp only [List.filterMap_cons, List.filterMap_append, List.filterMap_nil,
        segChecked, filterMap_free_map depLine _ segChecked hfree, List.append_nil]
    · rfl
  have hNotes : (if story.notes ≠ [] then
      [BodySeg.free (str "## Notes\n"), BodySeg.free story.notes, BodySeg.free []]
      else []).filterMap segChecked = [] := by
    split <;> rfl
  unfold segsOf
  rw [List.filterMap_append, List.filterMap_append, List.filterMap_append,
    List.filterMap_append, List.filterMap_append, List.filterMap_append,
    hUS, hAC, hT, hID, hDep, hNotes,
    show (List.filterMap segChecked [BodySeg.free (storyPointsLine story)]) = [] from rfl]
  simp [List.filter_append]

theorem segsOf_filterMap_unchecked (story : UserStory) :
    (segsOf story).filterMap segUnchecked =
      ((story.acceptance_criteria ++ story.tasks).filter
        (fun it => !it.checked)).map (·.text) := by
  have hfree : ∀ u, segUnchecked (.free u) = none := fun u => rfl
  have hUS : (if story.user_story ≠ [] then
      [BodySeg.free (str "## User Story\n"), BodySeg.free story.user_story,
        BodySeg.free []] else []).filterMap segUnchecked = [] := by
    split <;> rfl
  have hAC : (if story.acceptance_criteria ≠ [] then
      BodySeg.free (str "## Acceptance Criteria\n") ::
        (story.acceptance_criteria.map (fun it => BodySeg.item it.checked it.text) ++
          [BodySeg.free []]) else []).filterMap segUnchecked =
      (story.acceptance_criteria.filter (fun it => !it.checked)).map (·.text) := by
    by_cases h : story.acceptance_criteria = []
    · simp [h]
    · rw [if_pos h]
      simp only [List.filterMap_cons, List.filterMap_append, List.filterMap_nil,
        segUnchecked, items_filterMap_unchecked, List.append_nil]
  have hT : (if story.tasks ≠ [] then
      BodySeg.free (str "## Tasks\n") ::
        (story.tasks.map (fun it => BodySeg.item it.checked it.text) ++
          [BodySeg.free []]) else []).filterMap segUnchecked =
      (story.tasks.filter (fun it => !it.checked)).map (·.text) := by
    by_cases h : story.tasks = []
    · simp [h]
    · rw [if_pos h]
      simp only [List.filterMap_cons, List.filterMap_append, List.filterMap_nil,
        segUnchecked, items_filterMap_unchecked, List.append_nil]
  have hID : (if story.implementation_details ≠ [] then
      [BodySeg.free (str "## Implementation Details\n"),
        BodySeg.free story.implementation_details, BodySeg.free []]
      else []).filterMap segUnchecked = [] := by
    split <;> rfl
  have hDep : (if story.dependencies ≠ [] then
      BodySeg.free (str "## Dependencies\n") ::
        (story.dependencies.map (fun d => BodySeg.free (depLine d)) ++
          [BodySeg.free []]) else []).filterMap segUnchecked = [] := by
    split
    · simp only [List.filterMap_cons, List.filterMap_append, List.filterMap_nil,
        segUnchecked, filterMap_free_map depLine _ segUnchecked hfree, List.append_nil]
    · rfl
  have hNotes : (if story.notes ≠ [] then
      [BodySeg.free (str "## Notes\n"), BodySeg.free story.notes, BodySeg.free []]
      else []).filterMap segUnchecked = [] := by
    split <;> rfl
  unfold segsOf
  rw [List.filterMap_append, List.filterMap_append, List.filterMap_append,
    List.filterMap_append, List.filterMap_append, List.filterMap_append,
    hUS, hAC, hT, hID, hDep, hNotes,
    show (List.filterMap segUnchecked [BodySeg.free (storyPointsLine story)]) = [] from rfl]
  simp [List.filter_append]

instance wfItemText_decidable (t : Str) : Decidable (wfItemText t) := by
  unfold wfItemText
  infer_instance

/-- **C1 (amended)** Round-trip for well-formed stories: when every
acceptance-criteria/task text is non-empty, single-line, stripped and free
of the `"- ["` marker, and the free-text sections contain no `"- ["`,
extracting the checked and unchecked item sets from the built issue body
reproduces exactly the partition of the story's items by checked state. -/
theorem build_issue_body_roundtrip (story : UserStory)
    (hitems : ∀ it ∈ story.acceptance_criteria ++ story.tasks, wfItemText it.text)
    (hus : hasSub (str "- [") story.user_story = false)
    (himpl : hasSub (str "- [") story.implementation_details = false)
    (hnotes : hasSub (str "- [") story.notes = false) :
    issue_checked (build_issue_body story) =
      ((story.acceptance_criteria ++ story.tasks).filter (·.checked)).map (·.text) ∧
    issue_unchecked (build_issue_body story) =
      ((story.acceptance_criteria ++ story.tasks).filter
        (fun it => !it.checked)).map (·.text) := by
  have hwf := segsOf_wf story hitems hus himpl hnotes
  have hsegs := reFindCaps_segs (segsOf story) hwf
  have hbody : build_issue_body story = joinNL ((segsOf story).map segStr) := by
    rw [segsOf_map]
    rfl
  have hstripC :
      ∀ t ∈ ((story.acceptance_criteria ++ story.tasks).filter (·.checked)).map (·.text),
        pyStrip t = t := by
    intro t ht
    simp only [List.mem_map, List.mem_filter] at ht
    obtain ⟨it, ⟨hmem, _⟩, rfl⟩ := ht
    exact (hitems it hmem).2.2.1
  have hstripU :
      ∀ t ∈ ((story.acceptance_criteria ++ story.tasks).filter
          (fun it => !it.checked)).map (·.text),
        pyStrip t = t := by
    intro t ht
    simp only [List.mem_map, List.mem_filter] at ht
    obtain ⟨it, ⟨hmem, _⟩, rfl⟩ := ht
    exact (hitems it hmem).2.2.1
  constructor
  · unfold issue_checked
    rw [hbody, show tryChecked = tryCheckboxMarked (fun c => c = 'x' || c = 'X') from rfl,
      hsegs.1, segsOf_filterMap_checked]
    rw [List.map_congr_left (g := id) hstripC, List.map_id]
  · unfold issue_unchecked
    rw [hbody, show tryUnchecked = tryCheckboxMarked (fun c => c = ' ') from rfl,
      hsegs.2, segsOf_filterMap_unchecked]
    rw [List.map_congr_left (g := id) hstripU, List.map_id]

/-- **C1 counterexample** The claim as stated fails for arbitrary story
records: a story whose free-text User Story section itself contains a
checkbox-looking line yields an extracted checked text ("rogue") although
the story has no acceptance-criteria or task items at all. -/
theorem build_issue_body_roundtrip_cex :
    issue_checked (build_issue_body
        { id := str "US-001", title := str "T", user_story := str "- [x] rogue" }) =
      [str "rogue"] ∧
    ({ id := str "US-001", title := str "T", user_story := str "- [x] rogue" }
        : UserStory).acceptance_criteria = [] ∧
    ({ id := str "US-001", title := str "T", user_story := str "- [x] rogue" }
        : UserStory).tasks = [] := by
  decide

/-- Witness for C1 at a concrete well-formed story: one checked criterion
"Create VPC", one unchecked task "Write docs". -/
theorem build_issue_body_roundtrip_witness :
    issue_checked (build_issue_body
        { id := str "US-001", title := str "T",
          acceptance_criteria := [⟨str "Create VPC", true⟩],
          tasks := [⟨str "Write docs", false⟩] }) = [str "Create VPC"] ∧
    issue_unchecked (build_issue_body
        { id := str "US-001", title := str "T",
          acceptance_criteria := [⟨str "Create VPC", true⟩],
          tasks := [⟨str "Write docs", false⟩] }) = [str "Write docs"] :=
  build_issue_body_roundtrip
    { id := str "US-001", title := str "T",
      acceptance_criteria := [⟨str "Create VPC", true⟩],
      tasks := [⟨str "Write docs", false⟩] }
    (by decide) (by decide) (by decide) (by decide)

theorem tryCheckboxAny_shape (s : Str) (c : Char) (ws cap : Str)
    (h : tryCheckboxAny s = some (c, ws, cap)) :
    ∃ rest, s = '-' :: ' ' :: '[' :: c :: ']' :: rest ∧ c ≠ '\n' ∧
      wsPlusCapture rest = some (ws, cap) := by
  unfold tryCheckboxAny at h
  split at h
  next c' rest =>
    by_cases hc : c' = '\n'
    · rw [if_pos hc] at h
      exact absurd h (by simp)
    · rw [if_neg hc] at h
      cases hw : wsPlusCapture rest with
      | none =>
        rw [hw] at h
        exact absurd h (by simp)
      | some p =>
        obtain ⟨ws', cap'⟩ := p
        rw [hw] at h
        simp only [Option.map_some', Option.some.injEq, Prod.mk.injEq] at h
        obtain ⟨hc1, hws, hcap⟩ := h
        subst hc1
        subst hws
        subst hcap
        exact ⟨rest, rfl, hc, hw⟩
  next => exact absurd h (by simp)

theorem tryCheckboxAny_bounds (s : Str) (c : Char) (ws cap : Str)
    (h : tryCheckboxAny s = some (c, ws, cap)) :
    1 ≤ 5 + ws.length + cap.length ∧ 5 + ws.length + cap.length ≤ s.length := by
  obtain ⟨rest, rfl, -, hw⟩ := tryCheckboxAny_shape s c ws cap h
  have := wsPlusCapture_le rest ws cap hw
  constructor
  · omega
  · simp only [List.length_cons]
    omega

theorem subF_fuel (ick iuck : List Str) :
    ∀ fuel s, s.length ≤ fuel → subF ick iuck fuel s = subF ick iuck s.length s := by
  intro fuel
  induction fuel using Nat.strong_induction_on with
  | _ fuel ih =>
    intro s hs
    cases fuel with
    | zero =>
      have hnil : s = [] := List.eq_nil_of_length_eq_zero (by omega)
      subst hnil
      rfl
    | succ m =>
      cases s with
      | nil => rfl
      | cons ch rest =>
        simp only [List.length_cons] at hs
        show subF ick iuck (m + 1) (ch :: rest) = subF ick iuck (rest.length + 1) (ch :: rest)
        cases htry : tryCheckboxAny (ch :: rest) with
        | some p =>
          obtain ⟨c, ws, cap⟩ := p
          obtain ⟨hn1, hn2⟩ := tryCheckboxAny_bounds _ _ _ _ htry
          simp only [List.length_cons] at hn2
          have hlen : ((ch :: rest).drop (5 + ws.length + cap.length)).length ≤ rest.length := by
            simp only [List.length_drop, List.length_cons]
            omega
          simp only [subF, htry]
          rw [ih m (by omega) _ (le_trans hlen (by omega)),
            ih rest.length (by omega) _ hlen]
        | none =>
          simp only [subF, htry]
          rw [ih m (by omega) rest (by omega)]

theorem checkbox_sub_step_none (ick iuck : List Str) (ch : Char) (rest : Str)
    (h : tryCheckboxAny (ch :: rest) = none) :
    checkbox_sub ick iuck (ch :: rest) = ch :: checkbox_sub ick iuck rest := by
  unfold checkbox_sub
  show subF ick iuck (rest.length + 1) (ch :: rest) = ch :: subF ick iuck rest.length rest
  simp [subF, h]

theorem checkbox_sub_step_some (ick iuck : List Str) (s : Str) (c : Char) (ws cap : Str)
    (h : tryCheckboxAny s = some (c, ws, cap)) :
    checkbox_sub ick iuck s =
      update_checkbox ick iuck c ws cap ++
        checkbox_sub ick iuck (s.drop (5 + ws.length + cap.length)) := by
  obtain ⟨hn1, hn2⟩ := tryCheckboxAny_bounds _ _ _ _ h
  unfold checkbox_sub
  obtain ⟨m, hm⟩ : ∃ m, s.length = m + 1 := ⟨s.length - 1, by omega⟩
  rw [hm]
  simp only [subF, h]
  rw [subF_fuel ick iuck m (s.drop (5 + ws.length + cap.length))
    (by simp only [List.length_drop]; omega)]

theorem checkbox_sub_skip (ick iuck : List Str) :
    ∀ u v, hasSub (str "- [") u = false → (v = [] ∨ v.head? = some '\n') →
      checkbox_sub ick iuck (u ++ v) = u ++ checkbox_sub ick iuck v := by
  intro u
  induction u with
  | nil => simp
  | cons x u' ih =>
    intro v hu hv
    obtain ⟨hpref, htail⟩ := hasSub_cons_false _ _ _ hu
    have hnone : tryCheckboxAny (x :: (u' ++ v)) = none := by
      cases htry : tryCheckboxAny (x :: (u' ++ v)) with
      | none => rfl
      | some p =>
        obtain ⟨c, ws, cap⟩ := p
        obtain ⟨rest, heq, -, -⟩ := tryCheckboxAny_shape _ _ _ _ htry
        exfalso
        cases u' with
        | nil =>
          cases v with
          | nil => simp at heq
          | cons a v' =>
            simp only [List.nil_append] at heq
            injection heq with h1 h2
            injection h2 with h3 h4
            rcases hv with hvv | hvv
            · simp at hvv
            · rw [List.head?_cons, Option.some.injEq] at hvv
              rw [hvv] at h3
              simp at h3
        | cons y u'' =>
          cases u'' with
          | nil =>
            cases v with
            | nil => simp at heq
            | cons a v' =>
              simp only [List.cons_append, List.singleton_append] at heq
              injection heq with h1 h2
              injection h2 with h3 h4
              injection h4 with h5 h6
              rcases hv with hvv | hvv
              · simp at hvv
              · rw [List.head?_cons, Option.some.injEq] at hvv
                rw [hvv] at h5
                simp at h5
          | cons z u''' =>
            simp only [List.cons_append] at heq
            injection heq with h1 h2
            injection h2 with h3 h4
            injection h4 with h5 h6
            subst h1
            subst h3
            subst h5
            simp [str, List.isPrefixOf] at hpref
    rw [show (x :: u') ++ v = x :: (u' ++ v) from rfl,
      checkbox_sub_step_none ick iuck _ _ hnone, ih v htail hv]
    rfl

theorem checkbox_sub_nl (ick iuck : List Str) (z : Str) :
    checkbox_sub ick iuck ('\n' :: z) = '\n' :: checkbox_sub ick iuck z :=
  checkbox_sub_step_none ick iuck '\n' z rfl

theorem tryCheckboxAny_line (c c0 : Char) (t' v : Str) (hc : c ≠ '\n')
    (hc0 : isPySpace c0 = false) (hth : ∀ ch ∈ c0 :: t', ch ≠ '\n')
    (hv : v = [] ∨ v.head? = some '\n') :
    tryCheckboxAny ('-' :: ' ' :: '[' :: c :: ']' :: ' ' :: ((c0 :: t') ++ v)) =
      some (c, [' '], c0 :: t') := by
  simp only [tryCheckboxAny]
  rw [if_neg hc, wsPlusCapture_space c0 t' v hc0 hth hv]
  rfl

theorem checkbox_sub_line_mid (ick iuck : List Str) (c : Char) (t z : Str)
    (hc : c ≠ '\n') (hw : wfItemText t) :
    checkbox_sub ick iuck (('-' :: ' ' :: '[' :: c :: ']' :: ' ' :: t) ++ '\n' :: z) =
      update_checkbox ick iuck c [' '] t ++ '\n' :: checkbox_sub ick iuck z := by
  obtain ⟨c0, t', rfl⟩ := List.exists_cons_of_ne_nil hw.1
  have hc0 := strip_head_not_space c0 t' hw.2.2.1
  have hmatch := tryCheckboxAny_line c c0 t' ('\n' :: z) hc hc0 hw.2.1 (by simp)
  rw [show (('-' :: ' ' :: '[' :: c :: ']' :: ' ' :: (c0 :: t')) ++ '\n' :: z) =
      ('-' :: ' ' :: '[' :: c :: ']' :: ' ' :: ((c0 :: t') ++ ('\n' :: z))) from by simp,
    checkbox_sub_step_some ick iuck _ _ _ _ hmatch]
  congr 1
  have hdrop : ('-' :: ' ' :: '[' :: c :: ']' :: ' ' ::
      ((c0 :: t') ++ ('\n' :: z))).drop (5 + ([' '] : Str).length + (c0 :: t').length) =
      '\n' :: z := by
    rw [show ('-' :: ' ' :: '[' :: c :: ']' :: ' ' :: ((c0 :: t') ++ ('\n' :: z))) =
        (('-' :: ' ' :: '[' :: c :: ']' :: ' ' :: (c0 :: t')) ++ ('\n' :: z)) from by simp,
      show 5 + ([' '] : Str).length + (c0 :: t').length =
        ('-' :: ' ' :: '[' :: c :: ']' :: ' ' :: (c0 :: t')).length from by
          simp
          try omega,
      List.drop_left]
  rw [hdrop, checkbox_sub_nl]

theorem checkbox_sub_line_end (ick iuck : List Str) (c : Char) (t : Str)
    (hc : c ≠ '\n') (hw : wfItemText t) :
    checkbox_sub ick iuck ('-' :: ' ' :: '[' :: c :: ']' :: ' ' :: t) =
      update_checkbox ick iuck c [' '] t := by
  obtain ⟨c0, t', rfl⟩ := List.exists_cons_of_ne_nil hw.1
  have hc0 := strip_head_not_space c0 t' hw.2.2.1
  have hmatch := tryCheckboxAny_line c c0 t' [] hc hc0 hw.2.1 (by simp)
  rw [show ('-' :: ' ' :: '[' :: c :: ']' :: ' ' :: (c0 :: t')) =
      ('-' :: ' ' :: '[' :: c :: ']' :: ' ' :: ((c0 :: t') ++ [])) from by simp,
    checkbox_sub_step_some ick iuck _ _ _ _ hmatch]
  have hdrop : ('-' :: ' ' :: '[' :: c :: ']' :: ' ' ::
      ((c0 :: t') ++ [])).drop (5 + ([' '] : Str).length + (c0 :: t').length) = [] := by
    rw [show 5 + ([' '] : Str).length + (c0 :: t').length =
        ('-' :: ' ' :: '[' :: c :: ']' :: ' ' :: ((c0 :: t') ++ [])).length from by
          simp
          try omega,
      List.drop_length]
  rw [hdrop]
  rw [show checkbox_sub ick iuck [] = [] from rfl, List.append_nil]

/-- One line of a local story file, classified for checkbox
reconciliation: a checkbox line `- [<c>] <text>`, or any other line. -/
inductive CbLine
  | cb (c : Char) (t : Str)
  | plain (u : Str)

/-- The text of one local line. -/
def cbLineStr : CbLine → Str
  | .cb c t => '-' :: ' ' :: '[' :: c :: ']' :: ' ' :: t
  | .plain u => u

/-- Well-formedness of a local line: a checkbox line has a non-newline
state character and a well-formed text; a plain line is newline-free and
contains no `"- ["` marker. -/
def cbLineWF : CbLine → Prop
  | .cb c t => c ≠ '\n' ∧ wfItemText t
  | .plain u => hasSub (str "- [") u = false ∧ ∀ ch ∈ u, ch ≠ '\n'

/-- The per-line outcome the spec describes: force checked when the text
is a checked item, force unchecked when it is an unchecked item, else
leave the line untouched; non-checkbox lines are untouched. -/
def lineOutcome (ick iuck : List Str) : CbLine → Str
  | .cb c t =>
    if t ∈ ick then str "- [x] " ++ t
    else if t ∈ iuck then str "- [ ] " ++ t
    else cbLineStr (.cb c t)
  | .plain u => u

theorem update_checkbox_line (ick iuck : List Str) (c : Char) (t : Str)
    (hstrip : pyStrip t = t) :
    update_checkbox ick iuck c [' '] t = lineOutcome ick iuck (.cb c t) := by
  unfold update_checkbox lineOutcome
  dsimp only
  rw [hstrip]
  by_cases h1 : t ∈ ick
  · rw [if_pos h1, if_pos h1]
  · rw [if_neg h1, if_neg h1]
    by_cases h2 : t ∈ iuck
    · rw [if_pos h2, if_pos h2]
    · rw [if_neg h2, if_neg h2]
      rfl

theorem checkbox_sub_lines (ick iuck : List Str) :
    ∀ lines : List CbLine, (∀ l ∈ lines, cbLineWF l) →
      checkbox_sub ick iuck (joinNL (lines.map cbLineStr)) =
        joinNL (lines.map (lineOutcome ick iuck)) := by
  intro lines
  induction lines with
  | nil =>
    intro _
    rfl
  | cons l rest ih =>
    intro hwf
    have hl : cbLineWF l := hwf l (by simp)
    have ih' := ih fun x hx => hwf x (List.mem_cons_of_mem _ hx)
    cases rest with
    | nil =>
      simp only [List.map_cons, List.map_nil, joinNL]
      cases l with
      | cb c t =>
        obtain ⟨hc, hwt⟩ := hl
        rw [show cbLineStr (.cb c t) = '-' :: ' ' :: '[' :: c :: ']' :: ' ' :: t from rfl,
          checkbox_sub_line_end ick iuck c t hc hwt,
          update_checkbox_line ick iuck c t hwt.2.2.1]
      | plain u =>
        obtain ⟨hu, -⟩ := hl
        rw [show cbLineStr (.plain u) = u from rfl,
          show u = u ++ ([] : Str) from (List.append_nil u).symm,
          checkbox_sub_skip ick iuck u [] hu (Or.inl rfl)]
        rfl
    | cons l2 rest' =>
      have hjoin : joinNL ((l :: l2 :: rest').map cbLineStr) =
          cbLineStr l ++ '\n' :: joinNL ((l2 :: rest').map cbLineStr) := by
        simp only [List.map_cons, joinNL]
      have hjoin2 : joinNL ((l :: l2 :: rest').map (lineOutcome ick iuck)) =
          lineOutcome ick iuck l ++ '\n' :: joinNL ((l2 :: rest').map (lineOutcome ick iuck)) := by
        simp only [List.map_cons, joinNL]
      rw [hjoin, hjoin2]
      cases l with
      | cb c t =>
        obtain ⟨hc, hwt⟩ := hl
        rw [show cbLineStr (.cb c t) = '-' :: ' ' :: '[' :: c :: ']' :: ' ' :: t from rfl,
          checkbox_sub_line_mid ick iuck c t _ hc hwt,
          update_checkbox_line ick iuck c t hwt.2.2.1, ih']
      | plain u =>
        obtain ⟨hu, -⟩ := hl
        rw [show cbLineStr (.plain u) = u from rfl,
          checkbox_sub_skip ick iuck u _ hu (by simp), checkbox_sub_nl, ih']
        rfl

/-- **C2 (amended)** Inbound checkbox reconciliation, line by line: for a
local file made of lines that are each either a well-formed checkbox line
or a line containing no `"- ["` marker, every checkbox line whose text
matches a checked item of the remote body is rewritten checked, every one
matching an unchecked item is rewritten unchecked, and every other line is
left unchanged — the output is exactly the per-line outcome map, so
permuting the checkbox lines permutes the output lines identically. -/
theorem update_local_checkboxes_linewise (issue_body : Str) (lines : List CbLine)
    (hwf : ∀ l ∈ lines, cbLineWF l) :
    update_local_checkboxes issue_body (joinNL (lines.map cbLineStr)) =
      joinNL (lines.map
        (lineOutcome (issue_checked issue_body) (issue_unchecked issue_body))) ∧
    ∀ lines' : List CbLine, lines.Perm lines' →
      update_local_checkboxes issue_body (joinNL (lines'.map cbLineStr)) =
        joinNL (lines'.map
          (lineOutcome (issue_checked issue_body) (issue_unchecked issue_body))) := by
  constructor
  · exact checkbox_sub_lines _ _ lines hwf
  · intro lines' hperm
    exact checkbox_sub_lines _ _ lines' fun l hl => hwf l (hperm.mem_iff.mpr hl)

/-- **C2 counterexample** The claim as stated quantifies over every local
file content; a line that is not a checkbox line but contains checkbox
text mid-line ("x - [X] a") is modified by the code (to "x - [x] a") when
"a" is checked remotely, so "leaves every other line unchanged" fails. -/
theorem update_local_checkboxes_midline_cex :
    update_local_checkboxes (str "- [x] a") (str "x - [X] a") = str "x - [x] a" ∧
    str "x - [X] a" ≠ str "x - [x] a" := by
  constructor
  · decide
  · decide

/-- Witness for C2 at a concrete body and line list: against a body whose
"b" is unchecked, the local checked line `- [x] b` is forced unchecked, a
plain line is untouched, and the permuted file gets the permuted output. -/
theorem update_local_checkboxes_linewise_witness :
    update_local_checkboxes (str "- [ ] b")
        (joinNL (([.cb 'x' (str "b"), .plain (str "hello")] : List CbLine).map cbLineStr)) =
      joinNL (([.cb 'x' (str "b"), .plain (str "hello")] : List CbLine).map
        (lineOutcome (issue_checked (str "- [ ] b")) (issue_unchecked (str "- [ ] b")))) ∧
    update_local_checkboxes (str "- [ ] b")
        (joinNL (([.plain (str "hello"), .cb 'x' (str "b")] : List CbLine).map cbLineStr)) =
      joinNL (([.plain (str "hello"), .cb 'x' (str "b")] : List CbLine).map
        (lineOutcome (issue_checked (str "- [ ] b")) (issue_unchecked (str "- [ ] b")))) :=
  have h := update_local_checkboxes_linewise (str "- [ ] b")
    [.cb 'x' (str "b"), .plain (str "hello")]
    (by
      intro l hl
      simp only [List.mem_cons, List.not_mem_nil, or_false] at hl
      rcases hl with rfl | rfl
      · exact ⟨by decide, by decide, by decide, by decide, by decide⟩
      · exact ⟨by decide, by decide⟩)
  ⟨h.1, h.2 [.plain (str "hello"), .cb 'x' (str "b")] (List.Perm.swap _ _ _)⟩

/-- **C9** When a local checkbox text appears both as a checked and as an
unchecked item of the remote body (possible with duplicate item texts in
differing states), `update_checkbox` forces the match checked: the
`if text in issue_checked` branch takes precedence over the
`elif text in issue_unchecked` branch. -/
theorem update_checkbox_checked_precedence (issue_body : Str) (c : Char) (ws cap : Str)
    (hck : pyStrip cap ∈ issue_checked issue_body)
    (hun : pyStrip cap ∈ issue_unchecked issue_body) :
    update_checkbox (issue_checked issue_body) (issue_unchecked issue_body) c ws cap =
      str "- [x] " ++ pyStrip cap := by
  unfold update_checkbox
  rw [if_pos hck]

/-- Witness for C9 at the body "- [x] A\n- [ ] A", whose item text "A" is
both checked and unchecked; the unchecked local line `- [ ] A` is forced
checked. -/
theorem update_checkbox_checked_precedence_witness :
    update_checkbox (issue_checked (str "- [x] A\n- [ ] A"))
        (issue_unchecked (str "- [x] A\n- [ ] A")) ' ' [' '] (str "A") =
      str "- [x] " ++ pyStrip (str "A") :=
  update_checkbox_checked_precedence (str "- [x] A\n- [ ] A") ' ' [' '] (str "A")
    (by decide) (by decide)
